import Mathlib

/-!
Verification of the Structured-Response Recovery subsystem of the
CSRD_IRO_IDENTIFIER repository (src/app.py).

Python strings are modelled as `List Char` (`PyStr`); indices are `Nat`
except where Python's negative indices matter (then `Int`).  The standard
`json.loads` used by the code is embedded by porting CPython's reference
decoder (`json/decoder.py` and `json/scanner.py`, CPython 3.11; the C
accelerator `_json` is behaviourally equivalent on the inputs considered
here).  Recursive loops are written with an explicit fuel parameter; when
fuel runs out the result is the distinguished error `outOfFuel`, which is
propagated like Python's `RecursionError` (it is not a `JSONDecodeError`,
so the code's `except json.JSONDecodeError` clauses do not catch it).
-/

namespace CSRD

abbrev PyStr := List Char

def pys (s : String) : PyStr := s.toList

/-- A single apostrophe, as a string (used to build Python error messages). -/
def sq : String := String.mk [Char.ofNat 39]

/-- Python slice `s[i:j]` for `0 ≤ i ≤ j` (clamping, never raising). -/
def pySlice (s : PyStr) (i j : Nat) : PyStr := (s.drop i).take (j - i)

/-- Python `str.count(c)` restricted to one character. -/
def pyCount (s : PyStr) (c : Char) : Nat := s.count c

/-- Python `str.find(c, start)` for a single character and `start ≥ 0`:
first index `≥ start` holding `c`, or `-1`. -/
def pyFindFrom (s : PyStr) (c : Char) (start : Nat) : Int :=
  match (s.drop start).findIdx? (fun d => d == c) with
  | some k => Int.ofNat (start + k)
  | none => -1

/-- Python `str.strip()` (ASCII whitespace at both ends; the code only ever
strips around decimal digits and a closing parenthesis). -/
def pyStrip (s : PyStr) : PyStr :=
  ((s.dropWhile Char.isWhitespace).reverse.dropWhile Char.isWhitespace).reverse

/-- Decimal digits to a natural number (helper for `pyIntOfStr`). -/
def digitsToNat (ds : PyStr) : Nat :=
  ds.foldl (fun acc c => acc * 10 + (c.toNat - 48)) 0

/-- All characters are ASCII decimal digits. -/
def allDigits (ds : PyStr) : Bool := ds.all (fun c => c.isDigit)

/-- Python `int(str)` in base 10: optional surrounding whitespace, optional
sign, then one or more decimal digits; anything else raises `ValueError`.
(Underscore digit grouping and non-ASCII digits are not modelled; no claim
exercises them.) -/
def pyIntOfStr (s : PyStr) : Option Int :=
  match pyStrip s with
  | [] => none
  | c :: ds =>
    if c = '+' then
      (if ds ≠ [] ∧ allDigits ds then some (Int.ofNat (digitsToNat ds)) else none)
    else if c = '-' then
      (if ds ≠ [] ∧ allDigits ds then some (-(Int.ofNat (digitsToNat ds))) else none)
    else
      (if allDigits (c :: ds) then some (Int.ofNat (digitsToNat (c :: ds))) else none)

/-- Python `str.split(sep)` for a non-empty separator: left-to-right,
non-overlapping.  Fueled; fuel `s.length + 1` is always sufficient since
every step consumes at least one character of `s`. -/
def pySplitGo (sep : PyStr) : Nat → PyStr → PyStr → List PyStr
  | 0, s, acc => [acc.reverse ++ s]
  | fuel + 1, s, acc =>
    if sep ≠ [] ∧ sep.isPrefixOf s then
      acc.reverse :: pySplitGo sep fuel (s.drop sep.length) []
    else
      match s with
      | [] => [acc.reverse]
      | c :: r => pySplitGo sep fuel r (c :: acc)

def pySplit (s sep : PyStr) : List PyStr := pySplitGo sep (s.length + 1) s []

/-- Python `list[-1]` on a split result (which is always non-empty). -/
def pyLastPiece (l : List PyStr) : PyStr := l.getLastD []

/-- Python substring membership `needle in hay` (contiguous occurrence). -/
def pyInStr (needle hay : PyStr) : Bool :=
  hay.tails.any (fun t => needle.isPrefixOf t)

/-! ## Python JSON values (`json.loads` results) -/

inductive JValue where
  | null
  | jbool (b : Bool)
  | jstr (s : String)
  | jint (n : Int)
  /-- A JSON real (or `NaN` / `Infinity` / `-Infinity`): the matched text is
  carried verbatim; no claim inspects a float's numeric value. -/
  | jfloat (lit : String)
  | jarr (elems : List JValue)
  | jobj (fields : List (String × JValue))
  deriving BEq, Repr

mutual

def JValue.decEq : (a b : JValue) → Decidable (a = b)
  | .null, .null => isTrue rfl
  | .jbool x, .jbool y =>
    if h : x = y then isTrue (by rw [h])
    else isFalse (by intro hh; injection hh; contradiction)
  | .jstr x, .jstr y =>
    if h : x = y then isTrue (by rw [h])
    else isFalse (by intro hh; injection hh; contradiction)
  | .jint x, .jint y =>
    if h : x = y then isTrue (by rw [h])
    else isFalse (by intro hh; injection hh; contradiction)
  | .jfloat x, .jfloat y =>
    if h : x = y then isTrue (by rw [h])
    else isFalse (by intro hh; injection hh; contradiction)
  | .jarr xs, .jarr ys =>
    match JValue.decEqList xs ys with
    | isTrue h => isTrue (by rw [h])
    | isFalse h => isFalse (by intro hh; injection hh; contradiction)
  | .jobj xs, .jobj ys =>
    match JValue.decEqPairs xs ys with
    | isTrue h => isTrue (by rw [h])
    | isFalse h => isFalse (by intro hh; injection hh; contradiction)
  | .null, .jbool _ => isFalse (by intro h; cases h)
  | .null, .jstr _ => isFalse (by intro h; cases h)
  | .null, .jint _ => isFalse (by intro h; cases h)
  | .null, .jfloat _ => isFalse (by intro h; cases h)
  | .null, .jarr _ => isFalse (by intro h; cases h)
  | .null, .jobj _ => isFalse (by intro h; cases h)
  | .jbool _, .null => isFalse (by intro h; cases h)
  | .jbool _, .jstr _ => isFalse (by intro h; cases h)
  | .jbool _, .jint _ => isFalse (by intro h; cases h)
  | .jbool _, .jfloat _ => isFalse (by intro h; cases h)
  | .jbool _, .jarr _ => isFalse (by intro h; cases h)
  | .jbool _, .jobj _ => isFalse (by intro h; cases h)
  | .jstr _, .null => isFalse (by intro h; cases h)
  | .jstr _, .jbool _ => isFalse (by intro h; cases h)
  | .jstr _, .jint _ => isFalse (by intro h; cases h)
  | .jstr _, .jfloat _ => isFalse (by intro h; cases h)
  | .jstr _, .jarr _ => isFalse (by intro h; cases h)
  | .jstr _, .jobj _ => isFalse (by intro h; cases h)
  | .jint _, .null => isFalse (by intro h; cases h)
  | .jint _, .jbool _ => isFalse (by intro h; cases h)
  | .jint _, .jstr _ => isFalse (by intro h; cases h)
  | .jint _, .jfloat _ => isFalse (by intro h; cases h)
  | .jint _, .jarr _ => isFalse (by intro h; cases h)
  | .jint _, .jobj _ => isFalse (by intro h; cases h)
  | .jfloat _, .null => isFalse (by intro h; cases h)
  | .jfloat _, .jbool _ => isFalse (by intro h; cases h)
  | .jfloat _, .jstr _ => isFalse (by intro h; cases h)
  | .jfloat _, .jint _ => isFalse (by intro h; cases h)
  | .jfloat _, .jarr _ => isFalse (by intro h; cases h)
  | .jfloat _, .jobj _ => isFalse (by intro h; cases h)
  | .jarr _, .null => isFalse (by intro h; cases h)
  | .jarr _, .jbool _ => isFalse (by intro h; cases h)
  | .jarr _, .jstr _ => isFalse (by intro h; cases h)
  | .jarr _, .jint _ => isFalse (by intro h; cases h)
  | .jarr _, .jfloat _ => isFalse (by intro h; cases h)
  | .jarr _, .jobj _ => isFalse (by intro h; cases h)
  | .jobj _, .null => isFalse (by intro h; cases h)
  | .jobj _, .jbool _ => isFalse (by intro h; cases h)
  | .jobj _, .jstr _ => isFalse (by intro h; cases h)
  | .jobj _, .jint _ => isFalse (by intro h; cases h)
  | .jobj _, .jfloat _ => isFalse (by intro h; cases h)
  | .jobj _, .jarr _ => isFalse (by intro h; cases h)

def JValue.decEqList : (a b : List JValue) → Decidable (a = b)
  | [], [] => isTrue rfl
  | [], _ :: _ => isFalse (by intro h; cases h)
  | _ :: _, [] => isFalse (by intro h; cases h)
  | x :: xs, y :: ys =>
    match JValue.decEq x y, JValue.decEqList xs ys with
    | isTrue h1, isTrue h2 => isTrue (by rw [h1, h2])
    | isFalse h, _ => isFalse (by intro hh; injection hh; contradiction)
    | _, isFalse h => isFalse (by intro hh; injection hh; contradiction)

def JValue.decEqPairs : (a b : List (String × JValue)) → Decidable (a = b)
  | [], [] => isTrue rfl
  | [], _ :: _ => isFalse (by intro h; cases h)
  | _ :: _, [] => isFalse (by intro h; cases h)
  | (k1, v1) :: xs, (k2, v2) :: ys =>
    if h0 : k1 = k2 then
      match JValue.decEq v1 v2, JValue.decEqPairs xs ys with
      | isTrue h1, isTrue h2 => isTrue (by rw [h0, h1, h2])
      | isFalse h, _ =>
        isFalse (by intro hh; injection hh with hp _; injection hp; contradiction)
      | _, isFalse h => isFalse (by intro hh; injection hh; contradiction)
    else isFalse (by intro hh; injection hh with hp _; injection hp; contradiction)

end

instance : DecidableEq JValue := JValue.decEq

instance {ε α : Type} [DecidableEq ε] [DecidableEq α] : DecidableEq (Except ε α)
  | .ok a, .ok b =>
    match decEq a b with
    | isTrue h => isTrue (by rw [h])
    | isFalse h => isFalse (by intro hh; injection hh; contradiction)
  | .error a, .error b =>
    match decEq a b with
    | isTrue h => isTrue (by rw [h])
    | isFalse h => isFalse (by intro hh; injection hh; contradiction)
  | .ok _, .error _ => isFalse (by intro h; cases h)
  | .error _, .ok _ => isFalse (by intro h; cases h)

/-- Python `dict` update used by `dict(pairs)`: later duplicate keys
overwrite in place, first-insertion order is kept. -/
def dictSet (m : List (String × JValue)) (k : String) (v : JValue) :
    List (String × JValue) :=
  if m.any (fun p => p.1 == k) then
    m.map (fun p => if p.1 == k then (k, v) else p)
  else m ++ [(k, v)]

/-- `dict(pairs)` as built by `JSONObject`. -/
def dictOf (pairs : List (String × JValue)) : List (String × JValue) :=
  pairs.foldl (fun m p => dictSet m p.1 p.2) []

/-! ## `json.JSONDecodeError` and the exceptions the app can see -/

/-- `json.JSONDecodeError(msg, doc, pos)`: the unformatted message, the
document being parsed and the failure offset. -/
structure JsonErr where
  msg : String
  doc : PyStr
  pos : Nat
  deriving BEq, DecidableEq, Repr

/-- The exceptions reachable in `generate_iros` / `clean_json_string`. -/
inductive PyExc where
  /-- `json.JSONDecodeError` (caught by `except json.JSONDecodeError`). -/
  | jsonDecode (e : JsonErr)
  /-- `ValueError` (here: from `int(...)`), carrying the offending literal. -/
  | valueError (lit : String)
  /-- `AttributeError` (`.items()` / `.get` on a non-dict). -/
  | attributeError
  /-- `TypeError` (`len()` of an object with no length). -/
  | typeError
  /-- A transport/service error raised by the OpenAI client call. -/
  | transport
  /-- `RecursionError` (modelled by fuel exhaustion). -/
  | recursion
  deriving BEq, DecidableEq, Repr

/-- `str(e)` for a `JSONDecodeError`:
`'%s: line %d column %d (char %d)' % (msg, lineno, colno, pos)` with
`lineno = doc.count('\n', 0, pos) + 1` and
`colno = pos - doc.rfind('\n', 0, pos)`. -/
def jsonErrStr (e : JsonErr) : PyStr :=
  let pre := e.doc.take e.pos
  let lineno := pyCount pre (Char.ofNat 10) + 1
  let colno := (pre.reverse.takeWhile (fun c => !(c == Char.ofNat 10))).length + 1
  e.msg.toList ++ pys ": line " ++ pys (Nat.repr lineno) ++ pys " column "
    ++ pys (Nat.repr colno) ++ pys " (char " ++ pys (Nat.repr e.pos) ++ pys ")"

/-! ## The strict decoder (port of CPython `json/decoder.py`, `json/scanner.py`) -/

/-- Internal control flow of the scanner: `StopIteration(idx)`, a
`JSONDecodeError`, or fuel exhaustion (Python: `RecursionError`). -/
inductive ScanErr where
  | stop (idx : Nat)
  | dec (e : JsonErr)
  | outOfFuel
  deriving BEq, DecidableEq, Repr

/-- Strict binding for character-offset computations.  Semantically the
identity (`strictNat n f = f n`, see `strictNat_eq`); forcing each offset
to a numeral before it is reused keeps call-by-name kernel reduction
linear, matching Python's eager evaluation of these integers. -/
def strictNat {A : Type} (n : Nat) (f : Nat → A) : A :=
  match n with
  | 0 => f 0
  | m + 1 => f (m + 1)

/-- `WHITESPACE_STR = ' \t\n\r'`. -/
def jsonWs : List Char := [' ', Char.ofNat 9, Char.ofNat 10, Char.ofNat 13]

def wsPrefixLen : PyStr → Nat
  | [] => 0
  | c :: r => if c ∈ jsonWs then wsPrefixLen r + 1 else 0

/-- `WHITESPACE.match(s, i).end()`.  The `re` engine clamps `i` to
`len(s)` before matching, hence the `min`. -/
def skipWs (s : PyStr) (i : Nat) : Nat :=
  strictNat (min i s.length) fun j => j + wsPrefixLen (s.drop j)

/-- `nextchar in _ws` where `nextchar` is a one-character slice: the empty
slice `''` is a substring of `' \t\n\r'`, so it tests true. -/
def sliceInWs (nc : PyStr) : Bool :=
  match nc with
  | [] => true
  | [c] => c ∈ jsonWs
  | _ => false

/-- Terminators of `STRINGCHUNK`: `["\\\x00-\x1f]`. -/
def isStringTerminator (c : Char) : Bool :=
  c == '"' || c == '\\' || decide (c.toNat ≤ 31)

/-- The `BACKSLASH` escape table. -/
def backslashTable (c : Char) : Option Char :=
  List.lookup c
    [('"', '"'), ('\\', '\\'), ('/', '/'), ('b', Char.ofNat 8), ('f', Char.ofNat 12),
     ('n', Char.ofNat 10), ('r', Char.ofNat 13), ('t', Char.ofNat 9)]

def hexDigitChar (n : Nat) : Char :=
  if n < 10 then Char.ofNat (48 + n) else Char.ofNat (87 + n)

/-- Python `repr` of a one-character string, as used in the decoder's
`"{0!r}".format(...)` messages.  (For printable non-ASCII characters the
result is the character itself, as in CPython.) -/
def pyCharRepr (c : Char) : String :=
  if c == Char.ofNat 39 then String.mk [Char.ofNat 34, Char.ofNat 39, Char.ofNat 34]
  else
    let body :=
      if c == '\\' then "\\\\"
      else if c == Char.ofNat 9 then "\\t"
      else if c == Char.ofNat 10 then "\\n"
      else if c == Char.ofNat 13 then "\\r"
      else if decide (c.toNat < 32) || c == Char.ofNat 127 then
        "\\x" ++ String.mk [hexDigitChar (c.toNat / 16), hexDigitChar (c.toNat % 16)]
      else String.mk [c]
    sq ++ body ++ sq

def hexVal (c : Char) : Option Nat :=
  if '0' ≤ c ∧ c ≤ '9' then some (c.toNat - 48)
  else if 'a' ≤ c ∧ c ≤ 'f' then some (c.toNat - 87)
  else if 'A' ≤ c ∧ c ≤ 'F' then some (c.toNat - 70)
  else none

def hexListVal : PyStr → Option Nat
  | [] => some 0
  | c :: r => do
    let hd ← hexVal c
    let tl ← hexListVal r
    pure (hd * 16 ^ r.length + tl)

/-- `_decode_uXXXX(s, pos)`: the four characters after the `u` parsed as
hexadecimal (the leniencies of Python's `int(esc, 16)` — signs, spaces,
underscores — are not modelled; no claim exercises them). -/
def decodeUXXXX (s : PyStr) (pos : Nat) : Except ScanErr Nat :=
  let esc := pySlice s (pos + 1) (pos + 5)
  if esc.length = 4 ∧ !(esc.getD 1 ' ' == 'x') ∧ !(esc.getD 1 ' ' == 'X') then
    match hexListVal esc with
    | some v => .ok v
    | none => .error (.dec ⟨"Invalid \\uXXXX escape", s, pos⟩)
  else .error (.dec ⟨"Invalid \\uXXXX escape", s, pos⟩)

/-- `py_scanstring(s, end, strict=True)`, fueled.  `start` is the index of
the character after the opening quote; `begin = start - 1`.  Each loop
iteration consumes at least one character, so fuel `s.length + 1` always
suffices.  Lone surrogate code points (not representable in `Char`) are
mapped through `Char.ofNat`'s fallback; no claim exercises them. -/
def pyScanstringGo (s : PyStr) (beginp : Nat) :
    Nat → Nat → List Char → Except ScanErr (String × Nat)
  | 0, _, _ => .error .outOfFuel
  | fuel + 1, endp, acc =>
    let content := (s.drop endp).takeWhile (fun c => !(isStringTerminator c))
    strictNat (endp + content.length) fun tpos =>
    match s.get? tpos with
    | none => .error (.dec ⟨"Unterminated string starting at", s, beginp⟩)
    | some t =>
      let acc := acc ++ content
      if t == '"' then .ok (String.mk acc, tpos + 1)
      else if !(t == '\\') then
        .error (.dec ⟨"Invalid control character " ++ pyCharRepr t ++ " at", s, tpos + 1⟩)
      else
        match s.get? (tpos + 1) with
        | none => .error (.dec ⟨"Unterminated string starting at", s, beginp⟩)
        | some esc =>
          if !(esc == 'u') then
            match backslashTable esc with
            | none => .error (.dec ⟨"Invalid \\escape: " ++ pyCharRepr esc, s, tpos + 1⟩)
            | some ch => pyScanstringGo s beginp fuel (tpos + 2) (acc ++ [ch])
          else
            match decodeUXXXX s (tpos + 1) with
            | .error e => .error e
            | .ok uni =>
              let endu := tpos + 6
              if 0xd800 ≤ uni ∧ uni ≤ 0xdbff ∧ pySlice s endu (endu + 2) = pys "\\u" then
                match decodeUXXXX s (endu + 1) with
                | .error e => .error e
                | .ok uni2 =>
                  if 0xdc00 ≤ uni2 ∧ uni2 ≤ 0xdfff then
                    let comb := 0x10000 + ((uni - 0xd800) * 1024 + (uni2 - 0xdc00))
                    pyScanstringGo s beginp fuel (endu + 6) (acc ++ [Char.ofNat comb])
                  else pyScanstringGo s beginp fuel endu (acc ++ [Char.ofNat uni])
              else pyScanstringGo s beginp fuel endu (acc ++ [Char.ofNat uni])

def pyScanstring (s : PyStr) (endp : Nat) : Except ScanErr (String × Nat) :=
  pyScanstringGo s (endp - 1) (s.length + 1) endp []

/-- The match of `NUMBER_RE = (-?(?:0|[1-9]\d*))(\.\d+)?([eE][-+]?\d+)?`
at a given position: the three groups and `m.end()`. -/
structure NumMatch where
  intPart : PyStr
  fracPart : PyStr
  expPart : PyStr
  stop : Nat

def spanDigits (s : PyStr) : PyStr × PyStr :=
  (s.takeWhile Char.isDigit, s.dropWhile Char.isDigit)

def matchNumber (s : PyStr) (idx : Nat) : Option NumMatch :=
  let rest := s.drop idx
  let (signPart, rest1) :=
    match rest with
    | '-' :: r => (['-'], r)
    | _ => (([] : PyStr), rest)
  let intDigits? : Option (PyStr × PyStr) :=
    match rest1 with
    | '0' :: r => some (['0'], r)
    | c :: _ =>
      if c.isDigit then
        let (ds, r) := spanDigits rest1
        some (ds, r)
      else none
    | [] => none
  match intDigits? with
  | none => none
  | some (ds, rest2) =>
    let intPart := signPart ++ ds
    let (fracPart, rest3) :=
      match rest2 with
      | '.' :: r =>
        let (fs, r2) := spanDigits r
        if fs = [] then (([] : PyStr), rest2) else ('.' :: fs, r2)
      | _ => (([] : PyStr), rest2)
    let (expPart, _) :=
      match rest3 with
      | e :: r =>
        if e == 'e' || e == 'E' then
          let (sgn, r2) :=
            match r with
            | '+' :: r2 => (['+'], r2)
            | '-' :: r2 => (['-'], r2)
            | _ => (([] : PyStr), r)
          let (es, r3) := spanDigits r2
          if es = [] then (([] : PyStr), rest3) else (e :: (sgn ++ es), r3)
        else (([] : PyStr), rest3)
      | [] => (([] : PyStr), rest3)
    some ⟨intPart, fracPart, expPart, idx + intPart.length + fracPart.length + expPart.length⟩

/-- `parse_int` on the matched integer text (optional sign, digits). -/
def decTextToInt (t : PyStr) : Int :=
  match t with
  | '-' :: ds => -(Int.ofNat (digitsToNat ds))
  | ds => Int.ofNat (digitsToNat ds)

/-! `_scan_once` / `JSONObject` / `JSONArray`, mutually recursive on fuel.
Every function spends one unit of fuel per call or loop iteration; fuel
exhaustion models Python's recursion limit. -/

mutual

def scanOnce (s : PyStr) : Nat → Nat → Except ScanErr (JValue × Nat)
  | 0, _ => .error .outOfFuel
  | fuel + 1, idx =>
    match s.get? idx with
    | none => .error (.stop idx)
    | some c =>
      if c == '"' then
        match pyScanstring s (idx + 1) with
        | .ok (str, e) => .ok (.jstr str, e)
        | .error e => .error e
      else if c == '{' then parseJsonObject s fuel (idx + 1)
      else if c == '[' then parseJsonArray s fuel (idx + 1)
      else if c == 'n' && pySlice s idx (idx + 4) == pys "null" then .ok (.null, idx + 4)
      else if c == 't' && pySlice s idx (idx + 4) == pys "true" then .ok (.jbool true, idx + 4)
      else if c == 'f' && pySlice s idx (idx + 5) == pys "false" then .ok (.jbool false, idx + 5)
      else
        match matchNumber s idx with
        | some m =>
          if m.fracPart ≠ [] ∨ m.expPart ≠ [] then
            .ok (.jfloat (String.mk (m.intPart ++ m.fracPart ++ m.expPart)), m.stop)
          else .ok (.jint (decTextToInt m.intPart), m.stop)
        | none =>
          if c == 'N' && pySlice s idx (idx + 3) == pys "NaN" then .ok (.jfloat "NaN", idx + 3)
          else if c == 'I' && pySlice s idx (idx + 8) == pys "Infinity" then
            .ok (.jfloat "Infinity", idx + 8)
          else if c == '-' && pySlice s idx (idx + 9) == pys "-Infinity" then
            .ok (.jfloat "-Infinity", idx + 9)
          else .error (.stop idx)
termination_by structural fuel idx => fuel

def parseJsonObject (s : PyStr) : Nat → Nat → Except ScanErr (JValue × Nat)
  | 0, _ => .error .outOfFuel
  | fuel + 1, end0 =>
    let nc := pySlice s end0 (end0 + 1)
    if nc == pys "\"" then objectLoop s fuel [] (end0 + 1)
    else
      strictNat (if sliceInWs nc then skipWs s end0 else end0) fun end1 =>
      let nc1 := pySlice s end1 (end1 + 1)
      if nc1 == pys "\x7d" then .ok (.jobj [], end1 + 1)
      else if !(nc1 == pys "\"") then
        .error (.dec ⟨"Expecting property name enclosed in double quotes", s, end1⟩)
      else objectLoop s fuel [] (end1 + 1)
termination_by structural fuel end0 => fuel

def objectLoop (s : PyStr) : Nat → List (String × JValue) → Nat →
    Except ScanErr (JValue × Nat)
  | 0, _, _ => .error .outOfFuel
  | fuel + 1, pairs, endp =>
    match pyScanstring s endp with
    | .error e => .error e
    | .ok (key, e1) =>
      strictNat e1 fun e1 =>
      strictNat (if pySlice s e1 (e1 + 1) == pys ":" then e1 else skipWs s e1) fun e2 =>
      if !(pySlice s e2 (e2 + 1) == pys ":") then
        .error (.dec ⟨"Expecting " ++ sq ++ ":" ++ sq ++ " delimiter", s, e2⟩)
      else
        let e3 := e2 + 1
        strictNat
          (match s.get? e3 with
           | some c =>
             if c ∈ jsonWs then
               match s.get? (e3 + 1) with
               | some c2 => if c2 ∈ jsonWs then skipWs s (e3 + 2) else e3 + 1
               | none => e3 + 1
             else e3
           | none => e3) fun e4 =>
        match scanOnce s fuel e4 with
        | .error (.stop v) => .error (.dec ⟨"Expecting value", s, v⟩)
        | .error e => .error e
        | .ok (value, e5) =>
          let pairs := pairs ++ [(key, value)]
          strictNat e5 fun e5 =>
          -- `nextchar = s[end]; if ws: end = _w(s, end+1).end(); nextchar = s[end]`
          -- split into the updated offset `e6` and the re-read `nc2`
          strictNat
            (match s.get? e5 with
             | none => e5
             | some c => if c ∈ jsonWs then skipWs s (e5 + 1) else e5) fun e6 =>
          let nc2 : Option Char :=
            match s.get? e5 with
            | none => none
            | some c => if c ∈ jsonWs then s.get? e6 else some c
          let e7 := e6 + 1
          if nc2 == some '\x7d' then .ok (.jobj (dictOf pairs), e7)
          else if !(nc2 == some ',') then
            .error (.dec ⟨"Expecting " ++ sq ++ "," ++ sq ++ " delimiter", s, e7 - 1⟩)
          else
            strictNat (skipWs s e7) fun e8 =>
            let nc3 := pySlice s e8 (e8 + 1)
            let e9 := e8 + 1
            if !(nc3 == pys "\"") then
              .error (.dec ⟨"Expecting property name enclosed in double quotes", s, e9 - 1⟩)
            else objectLoop s fuel pairs e9
termination_by structural fuel pairs endp => fuel

def parseJsonArray (s : PyStr) : Nat → Nat → Except ScanErr (JValue × Nat)
  | 0, _ => .error .outOfFuel
  | fuel + 1, end0 =>
    let nc := pySlice s end0 (end0 + 1)
    strictNat (if sliceInWs nc then skipWs s (end0 + 1) else end0) fun e1 =>
    let nc1 := if sliceInWs nc then pySlice s e1 (e1 + 1) else nc
    if nc1 == pys "]" then .ok (.jarr [], e1 + 1)
    else arrayLoop s fuel [] e1
termination_by structural fuel end0 => fuel

def arrayLoop (s : PyStr) : Nat → List JValue → Nat → Except ScanErr (JValue × Nat)
  | 0, _, _ => .error .outOfFuel
  | fuel + 1, values, endp =>
    match scanOnce s fuel endp with
    | .error (.stop v) => .error (.dec ⟨"Expecting value", s, v⟩)
    | .error e => .error e
    | .ok (v, e1) =>
      let values := values ++ [v]
      strictNat e1 fun e1 =>
      let nc := pySlice s e1 (e1 + 1)
      strictNat (if sliceInWs nc then skipWs s (e1 + 1) else e1) fun e2 =>
      let nc2 := if sliceInWs nc then pySlice s e2 (e2 + 1) else nc
      let e3 := e2 + 1
      if nc2 == pys "]" then .ok (.jarr values, e3)
      else if !(nc2 == pys ",") then
        .error (.dec ⟨"Expecting " ++ sq ++ "," ++ sq ++ " delimiter", s, e3 - 1⟩)
      else
        strictNat
          (match s.get? e3 with
           | some c =>
             if c ∈ jsonWs then
               match s.get? (e3 + 1) with
               | some c2 => if c2 ∈ jsonWs then skipWs s (e3 + 2) else e3 + 1
               | none => e3 + 1
             else e3
           | none => e3) fun e4 =>
        arrayLoop s fuel values e4
termination_by structural fuel values endp => fuel

end

/-- Fuel that is always sufficient for the documents the claims evaluate:
each unit of nesting or iteration consumes at most a constant amount. -/
def jsonFuel (s : PyStr) : Nat := 8 * s.length + 8

/-- `json.loads(s)` for a `str` argument (BOM check, then
`JSONDecoder.decode`). -/
def jsonLoads (s : PyStr) : Except PyExc JValue :=
  if (pys "\uFEFF").isPrefixOf s then
    .error (.valueError "Unexpected UTF-8 BOM (decode using utf-8-sig)")
  else
    strictNat (skipWs s 0) fun idx =>
    match scanOnce s (jsonFuel s) idx with
    | .error (.stop v) => .error (.jsonDecode ⟨"Expecting value", s, v⟩)
    | .error (.dec e) => .error (.jsonDecode e)
    | .error .outOfFuel => .error .recursion
    | .ok (obj, endp) =>
      strictNat (skipWs s endp) fun end2 =>
      if end2 ≠ s.length then .error (.jsonDecode ⟨"Extra data", s, end2⟩)
      else .ok obj

/-! ## `clean_json_string` (src/app.py lines 30-103) -/

/-- One line of the Étape 1 loop (lines 38-54): the cleaned line and the
updated `(in_string, escape_next)` state.  An unescaped backslash is
copied and sets the escape flag (the `continue` skips the reset); an
unescaped quote toggles `in_string` before the emission test; a character
is emitted when `in_string` (after the toggle) or it is none of
LF/CR/TAB. -/
def scanLine : PyStr → Bool → Bool → (PyStr × Bool × Bool)
  | [], ins, esc => ([], ins, esc)
  | c :: rest, ins, esc =>
    if c == '\\' && !esc then
      let r := scanLine rest ins true
      (c :: r.1, r.2)
    else
      let ins' := if c == '"' && !esc then !ins else ins
      let keep := ins' || !(c == '\n' || c == '\r' || c == '\t')
      let r := scanLine rest ins' false
      (if keep then c :: r.1 else r.1, r.2)

/-- The per-line loop with `in_string` / `escape_next` persisting across
lines (they are initialised once, before the `for line in lines` loop). -/
def scanLines : List PyStr → Bool → Bool → List PyStr
  | [], _, _ => []
  | l :: ls, ins, esc =>
    let r := scanLine l ins esc
    r.1 :: scanLines ls r.2.1 r.2.2

/-- Python `str.split('\n')` (empty pieces kept). -/
def splitNl : PyStr → List PyStr
  | [] => [[]]
  | c :: r =>
    if c == '\n' then [] :: splitNl r
    else
      match splitNl r with
      | p :: ps => (c :: p) :: ps
      | [] => [[c]]

/-- `' '.join(pieces)`. -/
def joinSpace : List PyStr → PyStr
  | [] => []
  | [l] => l
  | l :: ls => l ++ ' ' :: joinSpace ls

/-- Étape 1 of `clean_json_string`: `split('\n')`, the character loop, then
`' '.join(cleaned_lines)`. -/
def pyScan (s : PyStr) : PyStr :=
  joinSpace (scanLines (splitNl s) false false)

/-- The Étape 2 position-collecting loop (lines 59-65).  Backslash and
quote positions are accumulated in one pass; the `i-1 not in
backslash_positions` test sees exactly the backslash positions collected
so far, as in the source.  Positions are `Int`s so that Python's `-1` at
`i = 0` is represented exactly. -/
def quoteScanGo : PyStr → Int → List Int → List Int → (List Int × List Int)
  | [], _, bs, qs => (bs, qs)
  | c :: r, i, bs, qs =>
    if c == '\\' then quoteScanGo r (i + 1) (bs ++ [i]) qs
    else if c == '"' && !(bs.contains (i - 1)) then quoteScanGo r (i + 1) bs (qs ++ [i])
    else quoteScanGo r (i + 1) bs qs

def quotePositions (s : PyStr) : List Int := (quoteScanGo s 0 [] []).2

/-- Étape 2 (lines 58-74): if the quote count is odd, insert a quote just
before the first `\x7d` after the last counted quote, or append one. -/
def quoteBalance (cleaned : PyStr) : PyStr :=
  let qs := quotePositions cleaned
  if qs.length % 2 ≠ 0 then
    let lastQuote := qs.getLastD 0
    let nextBrace := pyFindFrom cleaned '\x7d' lastQuote.toNat
    if nextBrace ≠ -1 then
      cleaned.take nextBrace.toNat ++ ['"'] ++ cleaned.drop nextBrace.toNat
    else cleaned ++ ['"']
  else cleaned

/-- Étape 3 (lines 77-84): the open-brace stack (`pop` only when
non-empty); only its length is used. -/
def braceStackGo : PyStr → List Char → List Char
  | [], st => st
  | c :: r, st =>
    if c == '\x7b' then braceStackGo r (st ++ [c])
    else if c == '\x7d' then braceStackGo r (if st.isEmpty then st else st.dropLast)
    else braceStackGo r st

def braceStack (s : PyStr) : List Char := braceStackGo s []

/-- Étapes 2-4 of `clean_json_string` (lines 58-103): quote balancing,
brace balancing, then the final validation with its single comma
insertion.  `.error` is the Python function raising: a `ValueError` from
`int(str(e).split('char ')[-1].strip())`, or a non-`JSONDecodeError`
escaping `json.loads`. -/
def balanceSteps (cleaned0 : PyStr) : Except PyExc PyStr :=
  let cleaned1 := quoteBalance cleaned0
  let cleaned2 := cleaned1 ++ List.replicate (braceStack cleaned1).length '\x7d'
  match jsonLoads cleaned2 with
  | .ok _ => .ok cleaned2
  | .error (.jsonDecode e) =>
    let afterComma : Except PyExc PyStr :=
      if pyInStr (pys ("Expecting " ++ sq ++ "," ++ sq ++ " delimiter")) (jsonErrStr e) then
        let piece := pyStrip (pyLastPiece (pySplit (jsonErrStr e) (pys "char ")))
        match pyIntOfStr piece with
        | none => .error (.valueError (String.mk piece))
        | some pos => .ok (cleaned2.take pos.toNat ++ [','] ++ cleaned2.drop pos.toNat)
      else .ok cleaned2
    (match afterComma with
     | .error err => .error err
     | .ok cleaned3 =>
       .ok (if pyCount cleaned3 '\x7b' > pyCount cleaned3 '\x7d' then
             cleaned3 ++ List.replicate (pyCount cleaned3 '\x7b' - pyCount cleaned3 '\x7d') '\x7d'
           else cleaned3))
  | .error e => .error e

/-- `clean_json_string` (lines 30-103): the Étape 1 scan followed by
Étapes 2-4. -/
def clean_json_string (s : PyStr) : Except PyExc PyStr :=
  balanceSteps (pyScan s)

/-! ## `generate_iros` (src/app.py lines 105-211) -/

/-- Python `x.get(k, default)`: only dicts have `.get`; any other receiver
raises `AttributeError`. -/
def pyGet (v : JValue) (k : String) (dflt : JValue) : Except PyExc JValue :=
  match v with
  | .jobj kvs => .ok ((kvs.lookup k).getD dflt)
  | _ => .error .attributeError

/-- Python `len(x)` on a decoded JSON value. -/
def pyLen (v : JValue) : Except PyExc Nat :=
  match v with
  | .jstr str => .ok str.length
  | .jarr xs => .ok xs.length
  | .jobj kvs => .ok kvs.length
  | _ => .error .typeError

/-- Python `x.items()`: only dicts have it. -/
def itemsOf (v : JValue) : Except PyExc (List (String × JValue)) :=
  match v with
  | .jobj kvs => .ok kvs
  | _ => .error .attributeError

/-- One `len(details.get(k1, \x7b\x7d).get(k2, [])) < 5` test from the
validation loop (lines 184-201). -/
def catCheck (details : JValue) (k1 k2 : String) : Except PyExc Bool := do
  let a ← pyGet details k1 (.jobj [])
  let b ← pyGet a k2 (.jarr [])
  let n ← pyLen b
  pure (decide (n < 5))

/-- The six sequential category checks for one issue; `true` means a
`return self.generate_iros(context)` branch is taken. -/
def checkDetails (details : JValue) : Except PyExc Bool := do
  if (← catCheck details "impacts" "positifs") then pure true
  else if (← catCheck details "impacts" "negatifs") then pure true
  else if (← catCheck details "risques" "liste") then pure true
  else if (← catCheck details "risques" "mesures_attenuation") then pure true
  else if (← catCheck details "opportunites" "liste") then pure true
  else if (← catCheck details "opportunites" "actions_saisie") then pure true
  else pure false

def checkIssues : List (String × JValue) → Except PyExc Bool
  | [] => pure false
  | (_, details) :: rest => do
    if (← checkDetails details) then pure true else checkIssues rest

def checkPillars : List (String × JValue) → Except PyExc Bool
  | [] => pure false
  | (_, enjeux) :: rest => do
    let issues ← itemsOf enjeux
    if (← checkIssues issues) then pure true else checkPillars rest

/-- The validation loop of `generate_iros` (lines 182-201): `.ok true` =
some check failed (the code re-invokes itself), `.ok false` = all checks
passed, `.error` = an exception escaped the loop. -/
def validateResult (result : JValue) : Except PyExc Bool := do
  let pillars ← itemsOf result
  checkPillars pillars

/-- The outcome of one generation attempt (the pair of
`chat.completions.create` calls): a transport/service exception from
either call, or the raw text of the second response. -/
inductive GenResult where
  | fail
  | ok (raw : PyStr)

/-- Lines 179-203 after a successful parse: run the validation loop; on a
shortfall, `return self.generate_iros(context)` — here `recurse`, the
(already counted) result of the recursive call.  The second component
counts generator invocations. -/
def afterParse (recurse : Except PyExc (JValue × Nat)) (result : JValue) :
    Except PyExc (JValue × Nat) :=
  match validateResult result with
  | .error e => .error e
  | .ok true =>
    (match recurse with
     | .ok (d, n) => .ok (d, n + 1)
     | .error e => .error e)
  | .ok false => .ok (result, 1)

/-- The body of the `try` block of `generate_iros` (lines 111-203) for one
attempt: the generator call, the parse / repair / reparse sequence
(lines 163-177, where the decode-failure-after-repair branch is the inner
`return \x7b\x7d`), then validation.  `.error` = an exception that the
enclosing `except Exception` will catch. -/
def genAttempt (gen : Nat → GenResult) (att : Nat)
    (recurse : Except PyExc (JValue × Nat)) : Except PyExc (JValue × Nat) :=
  match gen att with
  | .fail => .error .transport
  | .ok raw =>
    match jsonLoads raw with
    | .ok result => afterParse recurse result
    | .error (.jsonDecode _) =>
      (match clean_json_string raw with
       | .error e => .error e
       | .ok cleanedContent =>
         (match jsonLoads cleanedContent with
          | .ok result => afterParse recurse result
          | .error (.jsonDecode _) => .ok (.jobj [], 1)
          | .error e => .error e))
    | .error e => .error e

/-- `generate_iros` (lines 105-211), parameterised by the behaviour of the
external generator (`gen n` = outcome of attempt `n`) and the remaining
Python recursion depth `fuel`: a call with `fuel = 0` raises
`RecursionError` at the call site, which the caller's `except Exception`
then catches.  The result pairs the returned dict with the number of
generator invocations made by the whole call tree.  Every exception
raised inside the `try` block — transport errors, `ValueError` from
`clean_json_string`, `AttributeError`/`TypeError` from the validation
loop, `RecursionError` from the recursive call — is caught by `except
Exception`, which returns `\x7b\x7d`; the Streamlit display calls are
no-ops here, and the prompt built by `_create_prompt` influences only the
generator, so the `context` argument is represented through `gen`. -/
def generate_iros (gen : Nat → GenResult) : Nat → Nat → Except PyExc (JValue × Nat)
  | 0, _ => .error .recursion
  | fuel + 1, att =>
    match genAttempt gen att (generate_iros gen fuel (att + 1)) with
    | .ok r => .ok r
    | .error _ => .ok (.jobj [], 1)

/-! ## Spec-side definitions (for refinement comparisons only) -/

/-- Modelled from the spec (§4.1): the characters of a text lying inside a
quoted string, under the scanner's own escape/quote discipline, with the
final `(in_string, escape_next)` state.  A character is string content
when the in-string flag is set as it is processed and it is not the
unescaped quote that opens or closes the string. -/
def stringContent : PyStr → Bool → Bool → (PyStr × Bool × Bool)
  | [], ins, esc => ([], ins, esc)
  | c :: r, ins, esc =>
    if c == '\\' && !esc then
      let t := stringContent r ins true
      (if ins then c :: t.1 else t.1, t.2)
    else if c == '"' && !esc then
      let t := stringContent r (!ins) false
      t
    else
      let t := stringContent r ins false
      (if ins then c :: t.1 else t.1, t.2)

/-- Modelled from the spec (§8): the number of quote characters not
immediately preceded by an unescaped backslash (`esc` is true exactly when
the previous character was an unescaped backslash). -/
def specUnescapedQuotes : PyStr → Bool → Nat
  | [], _ => 0
  | c :: r, esc =>
    if c == '\\' && !esc then specUnescapedQuotes r true
    else if c == '"' && !esc then specUnescapedQuotes r false + 1
    else specUnescapedQuotes r false

/-- The six configured categories (container key, list key), in the order
the code checks them. -/
def categoryKeys : List (String × String) :=
  [("impacts", "positifs"), ("impacts", "negatifs"), ("risques", "liste"),
   ("risques", "mesures_attenuation"), ("opportunites", "liste"),
   ("opportunites", "actions_saisie")]

/-- Modelled from the spec (§4.4): the observed count for one category of
one issue, reading nested maps with absent keys as empty. -/
def specCatCount (details : JValue) (k1 k2 : String) : Nat :=
  match details with
  | .jobj kvs =>
    match (kvs.lookup k1).getD (.jobj []) with
    | .jobj kvs2 =>
      match (kvs2.lookup k2).getD (.jarr []) with
      | .jarr l => l.length
      | _ => 0
    | _ => 0
  | _ => 0

/-- Modelled from the spec (§4.4): some configured category of some issue
is under-populated (observed count below the required minimum of 5). -/
def specAnyShortfall (doc : JValue) : Bool :=
  match doc with
  | .jobj pillars => pillars.any (fun p =>
      match p.2 with
      | .jobj issues => issues.any (fun q =>
          categoryKeys.any (fun kk => decide (specCatCount q.2 kk.1 kk.2 < 5)))
      | _ => false)
  | _ => false

/-- The issue-detail shapes on which the validation loop's attribute
accesses are all defined: each category container, when present, is a
mapping, and each configured leaf, when present, is a list. -/
def wellShapedDetails (details : JValue) : Bool :=
  match details with
  | .jobj kvs =>
    categoryKeys.all (fun kk =>
      match (kvs.lookup kk.1).getD (.jobj []) with
      | .jobj kvs2 =>
        match (kvs2.lookup kk.2).getD (.jarr []) with
        | .jarr _ => true
        | _ => false
      | _ => false)
  | _ => false

/-- A parsed document whose two mapping levels are dicts and whose issue
details are all well shaped. -/
def wellShapedDoc (doc : JValue) : Bool :=
  match doc with
  | .jobj pillars => pillars.all (fun p =>
      match p.2 with
      | .jobj issues => issues.all (fun q => wellShapedDetails q.2)
      | _ => false)
  | _ => false

/-- Field access `doc[k]` on a decoded object, as an `Option`. -/
def jget (v : JValue) (k : String) : Option JValue :=
  match v with
  | .jobj kvs => kvs.lookup k
  | _ => none

/-- Text on which the Balancer would have nothing to do: the Étape 2 quote
count is even and the Étape 3 stack of unmatched open braces is empty. -/
def balancedText (x : PyStr) : Prop :=
  (quotePositions x).length % 2 = 0 ∧ braceStack x = []

/-- No backslash is immediately followed by a carriage return or a tab
(such a pair desynchronises the scanner, because the escaped control
character is dropped while the escape flag was already consumed). -/
def noEscCtl : PyStr → Bool
  | a :: b :: r => (!(a == '\\' && (b == '\r' || b == '\t'))) && noEscCtl (b :: r)
  | _ => true

/-! ## Concrete scenario inputs used by the claims -/

/-- A generator response that parses but has only 4 positive impacts for
its single issue (the §8 partial-document scenario). -/
def doc4raw : PyStr :=
  pys "\x7b\"e\":\x7b\"x\":\x7b\"impacts\":\x7b\"positifs\":[\"a\",\"b\",\"c\",\"d\"]\x7d\x7d\x7d\x7d"

/-- The decoded form of `doc4raw`. -/
def doc4val : JValue :=
  .jobj [("e", .jobj [("x", .jobj [("impacts",
    .jobj [("positifs", .jarr [.jstr "a", .jstr "b", .jstr "c", .jstr "d"])])])])]

/-- A generator that always returns `doc4raw`. -/
def gen4 : Nat → GenResult := fun _ => .ok doc4raw

/-- A generator whose service call always fails (transport error). -/
def genFail : Nat → GenResult := fun _ => .fail

/-- A generator that always returns text that neither parses nor repairs
to something parseable. -/
def genBad : Nat → GenResult := fun _ => .ok (pys "x")

/-- The §8 truncated-mid-string scenario input. -/
def raw8 : PyStr := pys "\x7b\"environnement\": \x7b\"eau\": \x7b\"description\": \"test"

/-- What the repair pipeline produces for `raw8`. -/
def rep8 : PyStr := pys "\x7b\"environnement\": \x7b\"eau\": \x7b\"description\": \"test\"\x7d\x7d\x7d"

/-- The decoded form of `rep8`. -/
def doc8 : JValue :=
  .jobj [("environnement", .jobj [("eau", .jobj [("description", .jstr "test")])])]

/-- A parsed document (it decodes from real JSON text) whose single
issue-details value is a string rather than a mapping: `details.get`
raises `AttributeError` on it. -/
def doc7bad : JValue := .jobj [("p", .jobj [("e", .jstr "x")])]

/-! # Theorems -/

theorem strictNat_eq {A : Type} (n : Nat) (f : Nat → A) : strictNat n f = f n := by
  cases n <;> rfl

/-- C2: the claim says `clean_json_string` never raises, and in particular
that the comma-insertion branch completes without throwing.  The code
contradicts this: on `\x7b"a": 1 "b": 2\x7d` the final validation fails
with `Expecting ',' delimiter ... (char 8)`, the branch computes
`int(str(e).split('char ')[-1].strip())` = `int("8)")`, and `int` raises
`ValueError` — the split piece keeps the closing parenthesis.  The
function therefore raises on this input instead of returning text. -/
theorem c2_comma_branch_raises :
    clean_json_string (pys "\x7b\"a\": 1 \"b\": 2\x7d") = .error (.valueError "8)") := by
  decide

/-- C8: the truncated-mid-string scenario.  `clean_json_string` repairs
`\x7b"environnement": \x7b"eau": \x7b"description": "test` by appending
the missing quote and the three missing braces; the repaired text decodes
without error and `environnement.eau.description` is `"test"`. -/
theorem c8_truncated_scenario_repairs :
    clean_json_string raw8 = .ok rep8 ∧ jsonLoads rep8 = .ok doc8 ∧
      ((jget doc8 "environnement").bind (fun v => jget v "eau")).bind
        (fun v => jget v "description") = some (.jstr "test") := by
  refine ⟨by decide, by decide, by decide⟩

/-- C4, counterexample: the claim says the output of the repair pipeline
always has equally many `\x7b` and `\x7d`.  On input `\x7d` the pipeline
returns `\x7d` unchanged (the brace pass only *appends* closers for
unmatched openers and never balances an unmatched closer), so the counts
are 0 and 1. -/
theorem c4_counterexample :
    clean_json_string (pys "\x7d") = .ok (pys "\x7d") ∧
      pyCount (pys "\x7d") '\x7b' ≠ pyCount (pys "\x7d") '\x7d' := by
  refine ⟨by decide, by decide⟩

/-- C5, counterexample: the claim says the number of unescaped quotes
(quotes not preceded by an unescaped backslash) in the repaired text is
always even.  On input `"a\\\x7d` the Étape 2 count is odd, and the
synthetic quote is inserted immediately *after a backslash* (just before
the `\x7d`), so it is itself escaped in the output: the output
`"a\\"\x7d` has exactly one unescaped quote. -/
theorem c5_counterexample :
    clean_json_string (pys "\"a\\\x7d") = .ok (pys "\"a\\\"\x7d") ∧
      specUnescapedQuotes (pys "\"a\\\"\x7d") false % 2 = 1 := by
  refine ⟨by decide, by decide⟩

/-- C6, counterexample: the claim says every character inside a string —
line breaks included — is copied verbatim.  The scanner splits on `'\n'`
*before* its character loop and rejoins with spaces, so a line break
inside a string becomes a space: for `"a\nb"` the string content changes
from `a\nb` to `a b`. -/
theorem c6_counterexample :
    pyScan (pys "\"a\nb\"") = pys "\"a b\"" ∧
      (stringContent (pyScan (pys "\"a\nb\"")) false false).1 ≠
        (stringContent (pys "\"a\nb\"") false false).1 := by
  refine ⟨by decide, by decide⟩

/-! ## The retry controller -/

theorem jsonLoads_doc4raw : jsonLoads doc4raw = .ok doc4val := by decide

theorem validateResult_doc4val : validateResult doc4val = .ok true := by decide

/-- With the constant 4-impact generator, one `try`-block run parses,
fails validation, and hands back the recursive call's outcome with one
more invocation counted. -/
theorem genAttempt_gen4 (att : Nat) (recurse : Except PyExc (JValue × Nat)) :
    genAttempt gen4 att recurse =
      match recurse with
      | .ok (d, n) => .ok (d, n + 1)
      | .error e => .error e := by
  simp only [genAttempt, gen4, jsonLoads_doc4raw, afterParse, validateResult_doc4val]

/-- With the constant 4-impact generator, a run at recursion depth `L + 1`
returns the empty dict after exactly `L + 1` generator invocations. -/
theorem gen4_run : ∀ (lim att : Nat),
    generate_iros gen4 (lim + 1) att = .ok (.jobj [], lim + 1) := by
  intro lim
  induction lim with
  | zero => intro att; simp [generate_iros, genAttempt_gen4]
  | succ n ih =>
    intro att
    have hstep : generate_iros gen4 (n + 1 + 1) att =
        match genAttempt gen4 att (generate_iros gen4 (n + 1) (att + 1)) with
        | .ok r => .ok r
        | .error _ => .ok (.jobj [], 1) := rfl
    rw [hstep, ih (att + 1), genAttempt_gen4]

/-- A successful validation phase either accepted the parsed document
(one invocation) or extends a successful recursive run by one. -/
theorem afterParse_count {recurse : Except PyExc (JValue × Nat)}
    {result : JValue} {r : JValue × Nat}
    (h : afterParse recurse result = .ok r) :
    r.2 = 1 ∨ ∃ d n, recurse = .ok (d, n) ∧ r = (d, n + 1) := by
  unfold afterParse at h
  cases hv : validateResult result with
  | error e => simp only [hv] at h; cases h
  | ok b =>
    simp only [hv] at h
    cases b with
    | false => simp only [] at h; left; injection h with h2; rw [← h2]
    | true =>
      simp only [] at h
      cases hr : recurse with
      | error e => simp only [hr] at h; cases h
      | ok p =>
        simp only [hr] at h
        obtain ⟨d, n⟩ := p
        simp only [] at h
        injection h with h2
        exact Or.inr ⟨d, n, rfl, h2.symm⟩

/-- Any successful `try`-block run either made exactly one generator
invocation or extends a successful recursive run by one invocation. -/
theorem genAttempt_count {gen : Nat → GenResult} {att : Nat}
    {recurse : Except PyExc (JValue × Nat)} {r : JValue × Nat}
    (h : genAttempt gen att recurse = .ok r) :
    r.2 = 1 ∨ ∃ d n, recurse = .ok (d, n) ∧ r = (d, n + 1) := by
  unfold genAttempt at h
  cases hg : gen att with
  | fail => simp only [hg] at h; cases h
  | ok raw =>
    simp only [hg] at h
    cases hl : jsonLoads raw with
    | ok result => simp only [hl] at h; exact afterParse_count h
    | error e =>
      simp only [hl] at h
      cases e with
      | jsonDecode je =>
        simp only [] at h
        cases hc : clean_json_string raw with
        | error e2 => simp only [hc] at h; cases h
        | ok s =>
          simp only [hc] at h
          cases hl2 : jsonLoads s with
          | ok result2 => simp only [hl2] at h; exact afterParse_count h
          | error e2 =>
            simp only [hl2] at h
            cases e2 with
            | jsonDecode je2 => simp only [] at h; left; injection h with h2; rw [← h2]
            | valueError lit => simp only [] at h; cases h
            | attributeError => simp only [] at h; cases h
            | typeError => simp only [] at h; cases h
            | transport => simp only [] at h; cases h
            | recursion => simp only [] at h; cases h
      | valueError lit => simp only [] at h; cases h
      | attributeError => simp only [] at h; cases h
      | typeError => simp only [] at h; cases h
      | transport => simp only [] at h; cases h
      | recursion => simp only [] at h; cases h

/-- Totality with an invocation bound: at Python recursion depth
`fuel ≥ 1`, `generate_iros` always returns a dict (every exception is
caught), having invoked the generator at most `fuel` times. -/
theorem generate_iros_total (gen : Nat → GenResult) :
    ∀ fuel att, 1 ≤ fuel →
      ∃ d n, generate_iros gen fuel att = .ok (d, n) ∧ n ≤ fuel := by
  intro fuel
  induction fuel with
  | zero => intro att h; omega
  | succ f ih =>
    intro att _
    cases hA : genAttempt gen att (generate_iros gen f (att + 1)) with
    | error e => exact ⟨.jobj [], 1, by simp [generate_iros, hA], by omega⟩
    | ok r =>
      rcases genAttempt_count hA with h1 | ⟨d, n, hrec, hr⟩
      · exact ⟨r.1, r.2, by simp [generate_iros, hA], by omega⟩
      · cases f with
        | zero =>
          rw [show generate_iros gen 0 (att + 1) = .error .recursion from rfl] at hrec
          cases hrec
        | succ f2 =>
          obtain ⟨d2, n2, hok, hle⟩ := ih (att + 1) (by omega)
          rw [hok] at hrec
          injection hrec with hpair
          injection hpair with hd hn
          subst hd hn
          refine ⟨d2, n2 + 1, ?_, by omega⟩
          have hstep : generate_iros gen (f2 + 1 + 1) att =
              match genAttempt gen att (generate_iros gen (f2 + 1) (att + 1)) with
              | .ok r => .ok r
              | .error _ => .ok (.jobj [], 1) := rfl
          rw [hstep]
          simp only [hA, hr]

/-- C1, counterexample: the claim bounds generator invocations by
`N + 1` for every retry budget `N` and promises termination regardless of
the generator.  The code consults no budget at all: with the constant
4-impact generator and recursion depth 9, nine invocations occur —
exceeding `N + 1` for any `N ≤ 7` — and the run ends only because the
recursion limit turns into a caught `RecursionError`. -/
theorem c1_counterexample :
    generate_iros gen4 9 0 = .ok (.jobj [], 9) ∧ 7 + 1 < 9 :=
  ⟨gen4_run 8 0, by omega⟩

/-- C1 amended: the code has no retry budget; on a validation shortfall it
re-invokes itself with the identical context, and the only bound is the
Python recursion depth `fuel`: every run returns (no infinite loop — a
depth-`fuel` run makes at most `fuel` generator invocations, and every
exception is caught into an empty-dict return). -/
theorem c1_invocations_bounded_by_depth (gen : Nat → GenResult)
    (fuel att : Nat) (d : JValue) (n : Nat)
    (h : generate_iros gen fuel att = .ok (d, n)) : n ≤ fuel := by
  cases fuel with
  | zero => cases h
  | succ f =>
    obtain ⟨d2, n2, he, hle⟩ := generate_iros_total gen (f + 1) att (by omega)
    rw [h] at he
    injection he with hpair
    have : n = n2 := congrArg Prod.snd hpair
    omega

theorem c1_witness :
    generate_iros gen4 2 0 = .ok (.jobj [], 2) ∧ 2 ≤ 2 :=
  ⟨gen4_run 1 0, c1_invocations_bounded_by_depth gen4 2 0 (.jobj []) 2 (gen4_run 1 0)⟩

/-- C3, counterexample: the claim says a document whose positive-impact
list has only 4 items is returned intact as an `Exhausted` outcome when
the budget is spent.  The code instead regenerates unboundedly and, once
the recursion limit is reached, every frame returns `\x7b\x7d`: the
caller receives the empty dict, not the 4-item document. -/
theorem c3_counterexample :
    generate_iros gen4 3 0 = .ok (.jobj [], 3) ∧
      jsonLoads doc4raw = .ok doc4val ∧ doc4val ≠ .jobj [] :=
  ⟨gen4_run 2 0, jsonLoads_doc4raw, by decide⟩

/-- C3 amended: a parsed document with a 4-item positive-impact category
always fails validation and triggers regeneration; with no budget in the
code, a run at any recursion depth `L ≥ 1` against such a generator ends
with the caller receiving the empty dict — the partial document is
discarded, never surfaced. -/
theorem c3_partial_document_discarded (lim : Nat) (h : 1 ≤ lim) :
    generate_iros gen4 lim 0 = .ok (.jobj [], lim) := by
  cases lim with
  | zero => omega
  | succ n => exact gen4_run n 0

theorem c3_witness :
    1 ≤ 2 ∧ generate_iros gen4 2 0 = .ok (.jobj [], 2) :=
  ⟨by omega, c3_partial_document_discarded 2 (by omega)⟩

/-- C10: `generate_iros` never propagates an exception (at any recursion
depth ≥ 1 it returns a dict), and both a transport failure of the
generator call and a terminal decode failure (raw text that fails to
parse and whose repair either raises or still fails to parse) produce the
same returned value — the empty dict after a single invocation — so the
caller cannot tell the two apart from the return value. -/
theorem c10_exceptions_swallowed (gen : Nat → GenResult) (fuel att : Nat)
    (h : 1 ≤ fuel) :
    (∃ d n, generate_iros gen fuel att = .ok (d, n)) ∧
    (gen att = .fail → generate_iros gen fuel att = .ok (.jobj [], 1)) ∧
    (∀ raw e, gen att = .ok raw → jsonLoads raw = .error e →
      (∀ s, clean_json_string raw = .ok s → ∃ e2, jsonLoads s = .error e2) →
      generate_iros gen fuel att = .ok (.jobj [], 1)) := by
  obtain ⟨f, rfl⟩ : ∃ f, fuel = f + 1 := ⟨fuel - 1, by omega⟩
  refine ⟨?_, ?_, ?_⟩
  · obtain ⟨d, n, he, _⟩ := generate_iros_total gen (f + 1) att (by omega)
    exact ⟨d, n, he⟩
  · intro hfail
    simp [generate_iros, genAttempt, hfail]
  · intro raw e hraw hload hclean
    cases e with
    | jsonDecode je =>
      cases hc : clean_json_string raw with
      | error e3 => simp [generate_iros, genAttempt, hraw, hload, hc]
      | ok s =>
        obtain ⟨e2, he2⟩ := hclean s hc
        cases e2 <;> simp [generate_iros, genAttempt, hraw, hload, hc, he2]
    | valueError lit => simp [generate_iros, genAttempt, hraw, hload]
    | attributeError => simp [generate_iros, genAttempt, hraw, hload]
    | typeError => simp [generate_iros, genAttempt, hraw, hload]
    | transport => simp [generate_iros, genAttempt, hraw, hload]
    | recursion => simp [generate_iros, genAttempt, hraw, hload]

/-! ## The comma-insertion branch always raises -/

theorem pySplitGo_ne_nil (sep : PyStr) : ∀ (fuel : Nat) (s acc : PyStr),
    pySplitGo sep fuel s acc ≠ [] := by
  intro fuel
  induction fuel with
  | zero => intro s acc; simp [pySplitGo]
  | succ f ih =>
    intro s acc
    unfold pySplitGo
    split
    · simp
    · split
      · simp
      · exact ih _ _

theorem getLastD_of_ne_nil {A : Type} : ∀ {l : List A}, l ≠ [] →
    ∀ d d2 : A, l.getLastD d = l.getLastD d2
  | [], h, _, _ => absurd rfl h
  | _ :: _, _, _, _ => by rw [List.getLastD_cons, List.getLastD_cons]

/-- The last piece of a Python `split` ends with the same character as the
whole string, provided the separator does not end with that character. -/
theorem pySplitGo_last_rparen (sep : PyStr) (hsep : sep.getLast? ≠ some ')') :
    ∀ (fuel : Nat) (s acc : PyStr),
      (acc.reverse ++ s).getLast? = some ')' →
      ((pySplitGo sep fuel s acc).getLastD []).getLast? = some ')' := by
  intro fuel
  induction fuel with
  | zero => intro s acc h; simpa [pySplitGo] using h
  | succ f ih =>
    intro s acc h
    unfold pySplitGo
    split
    · next hpre =>
      obtain ⟨hne, hpref⟩ := hpre
      obtain ⟨t, rfl⟩ := List.isPrefixOf_iff_prefix.mp hpref
      rw [List.drop_left]
      have hs_ne : sep ++ t ≠ [] := by
        intro hc
        rcases List.append_eq_nil.mp hc with ⟨h1, _⟩
        exact hne h1
      have hlast : (sep ++ t).getLast? = some ')' := by
        rw [List.getLast?_append_of_ne_nil acc.reverse hs_ne] at h
        exact h
      have ht_ne : t ≠ [] := by
        intro hc
        subst hc
        rw [List.append_nil] at hlast
        exact hsep hlast
      have htlast : t.getLast? = some ')' := by
        rw [List.getLast?_append_of_ne_nil sep ht_ne] at hlast
        exact hlast
      have hrec := ih t [] (by simpa using htlast)
      rw [List.getLastD_cons, getLastD_of_ne_nil (pySplitGo_ne_nil sep f t [])]
      exact hrec
    · split
      · simpa using h
      · rename_i c r hcond
        refine ih r (c :: acc) ?_
        simpa [List.reverse_cons, List.append_assoc] using h

theorem dropWhile_getLast? {p : Char → Bool} : ∀ {l : PyStr}, l.dropWhile p ≠ [] →
    (l.dropWhile p).getLast? = l.getLast? := by
  intro l
  induction l with
  | nil => intro h; simp [List.dropWhile] at h
  | cons c r ih =>
    intro h
    rw [List.dropWhile_cons] at h ⊢
    by_cases hc : p c = true
    · rw [if_pos hc] at h ⊢
      have hr : r ≠ [] := by
        intro hr0
        subst hr0
        simp [List.dropWhile] at h
      rw [ih h, show (c :: r) = [c] ++ r from rfl,
        List.getLast?_append_of_ne_nil [c] hr]
    · rw [if_neg hc]

theorem dropWhile_ne_nil_of_getLast? {p : Char → Bool} {c : Char} : ∀ {l : PyStr},
    l.getLast? = some c → p c = false → l.dropWhile p ≠ [] := by
  intro l
  induction l with
  | nil => intro h _; cases h
  | cons a r ih =>
    intro h hp
    rw [List.dropWhile_cons]
    by_cases ha : p a = true
    · rw [if_pos ha]
      have hrne : r ≠ [] := by
        intro hr0
        subst hr0
        have hac : a = c := by simpa [List.getLast?] using h
        subst hac
        rw [hp] at ha
        cases ha
      rw [show (a :: r) = [a] ++ r from rfl,
        List.getLast?_append_of_ne_nil [a] hrne] at h
      exact ih h hp
    · rw [if_neg ha]
      simp

theorem pyStrip_getLast? {l : PyStr} {c : Char} (h : l.getLast? = some c)
    (hc : c.isWhitespace = false) : (pyStrip l).getLast? = some c := by
  unfold pyStrip
  have h1ne : l.dropWhile Char.isWhitespace ≠ [] := dropWhile_ne_nil_of_getLast? h hc
  have h1 : (l.dropWhile Char.isWhitespace).getLast? = some c := by
    rw [dropWhile_getLast? h1ne]
    exact h
  have h2 : (l.dropWhile Char.isWhitespace).reverse.head? = some c := by
    rw [List.head?_reverse]
    exact h1
  obtain ⟨t, ht⟩ : ∃ t, (l.dropWhile Char.isWhitespace).reverse = c :: t := by
    cases hrev : (l.dropWhile Char.isWhitespace).reverse with
    | nil => rw [hrev] at h2; cases h2
    | cons x t =>
      rw [hrev] at h2
      injection h2 with hx
      exact ⟨t, by rw [hx]⟩
  rw [ht, List.dropWhile_cons, if_neg (by rw [hc]; simp), List.getLast?_reverse]
  rfl

theorem pyIntOfStr_rparen {l : PyStr} (h : l.getLast? = some ')') :
    pyIntOfStr l = none := by
  have hst : (pyStrip l).getLast? = some ')' := pyStrip_getLast? h (by decide)
  cases hs : pyStrip l with
  | nil => rw [hs] at hst; cases hst
  | cons c ds =>
    rw [hs] at hst
    cases hds : ds with
    | nil =>
      subst hds
      have hcq : c = ')' := by simpa [List.getLast?] using hst
      subst hcq
      simp only [pyIntOfStr, hs]
      decide
    | cons d ds2 =>
      have hds_ne : ds ≠ [] := by rw [hds]; simp
      have hlast : ds.getLast? = some ')' := by
        rw [show (c :: ds) = [c] ++ ds from rfl,
          List.getLast?_append_of_ne_nil [c] hds_ne] at hst
        exact hst
      have hmem : (')' : Char) ∈ ds := List.mem_of_getLast?_eq_some hlast
      have hAD : allDigits ds = false := by
        by_contra hx
        simp only [Bool.not_eq_false] at hx
        exact absurd (List.all_eq_true.mp hx _ hmem) (by decide)
      have hAD2 : allDigits (c :: ds) = false := by
        by_contra hx
        simp only [Bool.not_eq_false] at hx
        exact absurd (List.all_eq_true.mp hx ')' (by simp [hmem])) (by decide)
      simp only [pyIntOfStr, hs]
      by_cases hc1 : c = '+' <;> by_cases hc2 : c = '-' <;>
        simp [hc1, hc2, hAD, hAD2, hds_ne]

theorem jsonErrStr_last (e : JsonErr) : (jsonErrStr e).getLast? = some ')' := by
  show (_ ++ pys ")").getLast? = some ')'
  rw [List.getLast?_append_of_ne_nil _ (by decide)]
  decide

/-- The offset extraction `int(str(e).split('char ')[-1].strip())` of the
comma-insertion branch fails for every `JSONDecodeError`: the extracted
piece still carries the closing parenthesis of `(char N)`. -/
theorem comma_pos_int_fails (e : JsonErr) :
    pyIntOfStr (pyStrip (pyLastPiece (pySplit (jsonErrStr e) (pys "char ")))) = none := by
  have h1 : (pyLastPiece (pySplit (jsonErrStr e) (pys "char "))).getLast? = some ')' := by
    unfold pySplit pyLastPiece
    exact pySplitGo_last_rparen (pys "char ") (by decide) _ (jsonErrStr e) []
      (by simpa using jsonErrStr_last e)
  exact pyIntOfStr_rparen (pyStrip_getLast? h1 (by decide))

/-! ## Brace counting -/

/-- The Étape 3 stack length dominates the surplus of open braces. -/
theorem braceStackGo_count : ∀ (l : PyStr) (st : List Char),
    pyCount l '\x7b' + st.length ≤ (braceStackGo l st).length + pyCount l '\x7d' := by
  intro l
  induction l with
  | nil => intro st; simp [braceStackGo, pyCount]
  | cons c r ih =>
    intro st
    unfold braceStackGo
    by_cases h1 : c = '\x7b'
    · subst h1
      rw [if_pos (by decide)]
      have hb := ih (st ++ ['\x7b'])
      have hc1 : pyCount ('\x7b' :: r) '\x7b' = pyCount r '\x7b' + 1 := by
        simp [pyCount, List.count_cons]
      have hc2 : pyCount ('\x7b' :: r) '\x7d' = pyCount r '\x7d' := by
        simp [pyCount, List.count_cons]
      rw [hc1, hc2]
      simp only [List.length_append, List.length_cons, List.length_nil] at hb
      omega
    · rw [if_neg (by simp [h1])]
      by_cases h2 : c = '\x7d'
      · subst h2
        rw [if_pos (by decide)]
        have hc1 : pyCount ('\x7d' :: r) '\x7b' = pyCount r '\x7b' := by
          simp [pyCount, List.count_cons]
        have hc2 : pyCount ('\x7d' :: r) '\x7d' = pyCount r '\x7d' + 1 := by
          simp [pyCount, List.count_cons]
        rw [hc1, hc2]
        by_cases hst : st.isEmpty
        · have hb := ih st
          rw [if_pos hst]
          have : st = [] := by rwa [List.isEmpty_iff] at hst
          subst this
          simp only [List.length_nil] at hb ⊢
          omega
        · rw [if_neg hst]
          have hb := ih st.dropLast
          have hlen : st.dropLast.length = st.length - 1 := by
            simp [List.length_dropLast]
          have hpos : 0 < st.length := by
            cases st with
            | nil => simp at hst
            | cons a t => simp
          omega
      · rw [if_neg (by simp [h2])]
        have hb := ih st
        have hc1 : pyCount (c :: r) '\x7b' = pyCount r '\x7b' := by
          simp [pyCount, List.count_cons, h1]
        have hc2 : pyCount (c :: r) '\x7d' = pyCount r '\x7d' := by
          simp [pyCount, List.count_cons, h2]
        rw [hc1, hc2]
        omega

/-- Empty open-brace stack means no surplus of open braces. -/
theorem braceStack_nil_count (l : PyStr) (hb : braceStack l = []) :
    pyCount l '\x7b' ≤ pyCount l '\x7d' := by
  have h := braceStackGo_count l []
  unfold braceStack at hb
  rw [hb] at h
  simpa using h

/-- Counting after inserting one character at an arbitrary position. -/
theorem pyCount_insert (l : PyStr) (n : Nat) (d c : Char) :
    pyCount (l.take n ++ d :: l.drop n) c =
      pyCount l c + (if (d == c) = true then 1 else 0) := by
  unfold pyCount
  rw [List.count_append, List.count_cons]
  conv_rhs => rw [← List.take_append_drop n l, List.count_append]
  omega

/-- The Étape 4 unmatched-opener top-up never leaves more `\x7b` than
`\x7d`, whatever text it is given. -/
theorem topup_le (c3 : PyStr) :
    pyCount (if pyCount c3 '\x7b' > pyCount c3 '\x7d'
        then c3 ++ List.replicate (pyCount c3 '\x7b' - pyCount c3 '\x7d') '\x7d'
        else c3) '\x7b' ≤
      pyCount (if pyCount c3 '\x7b' > pyCount c3 '\x7d'
        then c3 ++ List.replicate (pyCount c3 '\x7b' - pyCount c3 '\x7d') '\x7d'
        else c3) '\x7d' := by
  split
  · next hgt =>
    unfold pyCount
    rw [List.count_append, List.count_append, List.count_replicate,
      List.count_replicate]
    simp only [show (('\x7d' : Char) == '\x7b') = false from by decide,
      show (('\x7d' : Char) == '\x7d') = true from by decide]
    simp only [Bool.false_eq_true, if_false, if_true]
    unfold pyCount at hgt
    omega
  · next hle => omega

/-- Every text returned by Étapes 2-4 satisfies the one-sided brace bound. -/
theorem balanceSteps_ok_brace {x s : PyStr} (h : balanceSteps x = .ok s) :
    pyCount s '\x7b' ≤ pyCount s '\x7d' := by
  unfold balanceSteps at h
  set c1 := quoteBalance x with hc1
  set c2 := c1 ++ List.replicate (braceStack c1).length '\x7d' with hc2
  have hkey : pyCount c2 '\x7b' ≤ pyCount c2 '\x7d' := by
    rw [hc2]
    have hcount := braceStackGo_count c1 []
    unfold pyCount at hcount ⊢
    rw [List.count_append, List.count_append, List.count_replicate,
      List.count_replicate]
    simp only [show (('\x7d' : Char) == '\x7b') = false from by decide,
      show (('\x7d' : Char) == '\x7d') = true from by decide]
    simp only [Bool.false_eq_true, if_false, if_true]
    unfold braceStack
    simp only [List.length_nil, Nat.add_zero] at hcount
    omega
  cases hl : jsonLoads c2 with
  | ok v =>
    simp only [hl] at h
    injection h with h2
    rw [← h2]
    exact hkey
  | error e =>
    cases e with
    | jsonDecode je =>
      simp only [hl] at h
      by_cases hin :
          pyInStr (pys ("Expecting " ++ sq ++ "," ++ sq ++ " delimiter")) (jsonErrStr je) = true
      · rw [if_pos hin] at h
        cases hp : pyIntOfStr (pyStrip (pyLastPiece (pySplit (jsonErrStr je) (pys "char ")))) with
        | none => rw [hp] at h; cases h
        | some pos =>
          rw [hp] at h
          simp only [] at h
          injection h with h2
          rw [← h2]
          exact topup_le _
      · rw [if_neg hin] at h
        simp only [] at h
        injection h with h2
        rw [← h2]
        exact topup_le _
    | valueError lit => simp only [hl] at h; cases h
    | attributeError => simp only [hl] at h; cases h
    | typeError => simp only [hl] at h; cases h
    | transport => simp only [hl] at h; cases h
    | recursion => simp only [hl] at h; cases h

/-- C4 amended: the repaired text need not have *equal* brace counts (see
the counterexample on `\x7d`), but whenever `clean_json_string` returns,
the returned text has at least as many `\x7d` as `\x7b` — the pipeline
only ever appends closers for unmatched openers. -/
theorem c4_brace_surplus_closers {x s : PyStr}
    (h : clean_json_string x = .ok s) :
    pyCount s '\x7b' ≤ pyCount s '\x7d' := by
  unfold clean_json_string at h
  exact balanceSteps_ok_brace h

theorem c4_witness :
    clean_json_string (pys "\x7b\x7b") = .ok (pys "\x7b\x7b\x7d\x7d") ∧
      pyCount (pys "\x7b\x7b\x7d\x7d") '\x7b' ≤ pyCount (pys "\x7b\x7b\x7d\x7d") '\x7d' :=
  ⟨by decide,
    @c4_brace_surplus_closers (pys "\x7b\x7b") (pys "\x7b\x7b\x7d\x7d") (by decide)⟩

/-! ## The Balancer on already-balanced text (C9) -/

/-- On text whose quote count is even and whose open-brace stack is empty,
Étapes 2-4 either return the text unchanged or raise (the `ValueError` of
the comma branch, or a non-`JSONDecodeError` escaping `json.loads`). -/
theorem balanceSteps_balanced_cases (x : PyStr) (h : balancedText x) :
    balanceSteps x = .ok x ∨ ∃ err, balanceSteps x = .error err := by
  obtain ⟨hq, hb⟩ := h
  have h1 : quoteBalance x = x := by
    unfold quoteBalance
    rw [if_neg (by simp [hq])]
  have hx2 : quoteBalance x ++ List.replicate (braceStack (quoteBalance x)).length '\x7d'
      = x := by
    rw [h1, hb]
    simp
  simp only [balanceSteps]
  rw [hx2]
  cases hl : jsonLoads x with
  | ok v => left; simp [hl]
  | error e =>
    cases e with
    | jsonDecode je =>
      by_cases hin :
          pyInStr (pys ("Expecting " ++ sq ++ "," ++ sq ++ " delimiter")) (jsonErrStr je) = true
      · right
        refine ⟨.valueError
          (String.mk (pyStrip (pyLastPiece (pySplit (jsonErrStr je) (pys "char "))))), ?_⟩
        simp [hl, hin, comma_pos_int_fails je]
      · left
        have hle := braceStack_nil_count x hb
        simp only [hl, if_neg hin]
        rw [if_neg (by omega)]
    | valueError lit => right; exact ⟨.valueError lit, by simp [hl]⟩
    | attributeError => right; exact ⟨.attributeError, by simp [hl]⟩
    | typeError => right; exact ⟨.typeError, by simp [hl]⟩
    | transport => right; exact ⟨.transport, by simp [hl]⟩
    | recursion => right; exact ⟨.recursion, by simp [hl]⟩

/-- C9: on already-balanced text (even Étape 2 quote count, empty Étape 3
brace stack) the Balancer is idempotent: running Étapes 2-4 twice — with
a raise propagating, as in Python — equals running them once, because a
balanced input passes through unchanged whenever the function returns. -/
theorem c9_balance_idempotent (x : PyStr) (h : balancedText x) :
    (balanceSteps x).bind balanceSteps = balanceSteps x := by
  rcases balanceSteps_balanced_cases x h with he | ⟨err, he⟩
  · rw [he]
    show balanceSteps x = Except.ok x
    exact he
  · rw [he]
    rfl

theorem c9_witness :
    balancedText (pys "\x7b\"a\": 1\x7d") ∧
      (balanceSteps (pys "\x7b\"a\": 1\x7d")).bind balanceSteps =
        balanceSteps (pys "\x7b\"a\": 1\x7d") :=
  ⟨⟨by decide, by decide⟩,
    c9_balance_idempotent (pys "\x7b\"a\": 1\x7d") ⟨by decide, by decide⟩⟩

/-! ## Quote parity on backslash-free inputs (C5) -/

theorem scanLine_mem : ∀ {l : PyStr} {ins esc : Bool} {c : Char},
    c ∈ (scanLine l ins esc).1 → c ∈ l := by
  intro l
  induction l with
  | nil => intro ins esc c h; simp [scanLine] at h
  | cons a r ih =>
    intro ins esc c h
    by_cases h1 : (a == '\\' && !esc) = true
    · simp only [scanLine, h1, if_true] at h
      rcases List.mem_cons.mp h with h | h
      · exact h ▸ List.mem_cons_self a r
      · exact List.mem_cons_of_mem a (ih h)
    · simp only [scanLine, h1, if_false] at h
      set ins2 := (if (a == '"' && !esc) = true then !ins else ins) with hins2
      by_cases hkeep : (ins2 || !(a == '\n' || a == '\r' || a == '\t')) = true
      · rw [if_pos hkeep] at h
        rcases List.mem_cons.mp h with h | h
        · exact h ▸ List.mem_cons_self a r
        · exact List.mem_cons_of_mem a (ih h)
      · rw [if_neg hkeep] at h
        exact List.mem_cons_of_mem a (ih h)

theorem scanLines_mem : ∀ {L : List PyStr} {ins esc : Bool} {p : PyStr},
    p ∈ scanLines L ins esc → ∀ {c : Char}, c ∈ p → ∃ l ∈ L, c ∈ l := by
  intro L
  induction L with
  | nil => intro ins esc p h; simp [scanLines] at h
  | cons l ls ih =>
    intro ins esc p h c hc
    simp only [scanLines] at h
    rcases List.mem_cons.mp h with h | h
    · exact ⟨l, List.mem_cons_self l ls, scanLine_mem (h ▸ hc)⟩
    · obtain ⟨l2, hl2, hcl2⟩ := ih h hc
      exact ⟨l2, List.mem_cons_of_mem l hl2, hcl2⟩

theorem joinSpace_mem : ∀ {L : List PyStr} {c : Char},
    c ∈ joinSpace L → c = ' ' ∨ ∃ p ∈ L, c ∈ p := by
  intro L
  induction L with
  | nil => intro c h; simp [joinSpace] at h
  | cons l ls ih =>
    intro c h
    cases ls with
    | nil => exact Or.inr ⟨l, List.mem_cons_self l [], h⟩
    | cons l2 ls2 =>
      rw [show joinSpace (l :: l2 :: ls2) = l ++ ' ' :: joinSpace (l2 :: ls2) from rfl] at h
      rcases List.mem_append.mp h with h | h
      · exact Or.inr ⟨l, List.mem_cons_self l _, h⟩
      · rcases List.mem_cons.mp h with h | h
        · exact Or.inl h
        · rcases ih h with h | ⟨p, hp, hcp⟩
          · exact Or.inl h
          · exact Or.inr ⟨p, List.mem_cons_of_mem l hp, hcp⟩

theorem splitNl_mem : ∀ {x : PyStr} {p : PyStr},
    p ∈ splitNl x → ∀ {c : Char}, c ∈ p → c ∈ x := by
  intro x
  induction x with
  | nil =>
    intro p h c hc
    simp [splitNl] at h
    subst h
    simp at hc
  | cons a r ih =>
    intro p h c hc
    unfold splitNl at h
    split at h
    · rcases List.mem_cons.mp h with h | h
      · subst h; simp at hc
      · exact List.mem_cons_of_mem a (ih h hc)
    · cases hsp : splitNl r with
      | nil =>
        rw [hsp] at h
        simp at h
        subst h
        rcases List.mem_cons.mp hc with hc | hc
        · exact hc ▸ List.mem_cons_self a r
        · simp at hc
      | cons q qs =>
        rw [hsp] at h
        rcases List.mem_cons.mp h with h | h
        · subst h
          rcases List.mem_cons.mp hc with hc | hc
          · exact hc ▸ List.mem_cons_self a r
          · exact List.mem_cons_of_mem a (ih (hsp ▸ List.mem_cons_self q qs) hc)
        · exact List.mem_cons_of_mem a (ih (hsp ▸ List.mem_cons_of_mem q h) hc)

/-- Every character of the scan output comes from the input or is one of
the joining spaces. -/
theorem pyScan_mem {x : PyStr} {c : Char} (h : c ∈ pyScan x) : c = ' ' ∨ c ∈ x := by
  unfold pyScan at h
  rcases joinSpace_mem h with h | ⟨p, hp, hcp⟩
  · exact Or.inl h
  · obtain ⟨l, hl, hcl⟩ := scanLines_mem hp hcp
    exact Or.inr (splitNl_mem hl hcl)

/-- On backslash-free text the Étape 2 loop counts every quote. -/
theorem quoteScanGo_no_bs : ∀ {l : PyStr}, '\\' ∉ l → ∀ (i : Int) (qs : List Int),
    ((quoteScanGo l i [] qs).2).length = qs.length + pyCount l '"' := by
  intro l
  induction l with
  | nil => intro _ i qs; simp [quoteScanGo, pyCount]
  | cons a r ih =>
    intro hnb i qs
    have ha : ¬(a = '\\') := fun hh => hnb (hh ▸ List.mem_cons_self a r)
    have hr : '\\' ∉ r := fun hh => hnb (List.mem_cons_of_mem a hh)
    unfold quoteScanGo
    rw [if_neg (by simp [ha])]
    by_cases hq : a = '"'
    · subst hq
      rw [if_pos (by simp [List.contains])]
      rw [ih hr (i + 1) (qs ++ [i])]
      simp [pyCount, List.count_cons]
      omega
    · rw [if_neg (by simp [hq])]
      rw [ih hr (i + 1) qs]
      simp [pyCount, List.count_cons, hq]

/-- On backslash-free text the spec's unescaped-quote count is the plain
quote count. -/
theorem specUnescapedQuotes_no_bs : ∀ {l : PyStr}, '\\' ∉ l →
    specUnescapedQuotes l false = pyCount l '"' := by
  intro l
  induction l with
  | nil => intro _; simp [specUnescapedQuotes, pyCount]
  | cons a r ih =>
    intro hnb
    have ha : ¬(a = '\\') := fun hh => hnb (hh ▸ List.mem_cons_self a r)
    have hr : '\\' ∉ r := fun hh => hnb (List.mem_cons_of_mem a hh)
    unfold specUnescapedQuotes
    rw [if_neg (by simp [ha])]
    by_cases hq : a = '"'
    · subst hq
      rw [if_pos (by simp)]
      rw [ih hr]
      simp [pyCount, List.count_cons]
    · rw [if_neg (by simp [hq])]
      rw [ih hr]
      simp [pyCount, List.count_cons, hq]

/-- On backslash-free text Étape 2 leaves an even number of quotes. -/
theorem quoteBalance_even (y : PyStr) (hy : '\\' ∉ y) :
    pyCount (quoteBalance y) '"' % 2 = 0 := by
  have hqp : (quotePositions y).length = pyCount y '"' := by
    have := quoteScanGo_no_bs hy 0 []
    simpa [quotePositions] using this
  simp only [quoteBalance]
  split
  · next hodd =>
    split
    · rw [List.append_assoc, List.singleton_append, pyCount_insert]
      rw [hqp] at hodd
      simp only [show (('"' : Char) == '"') = true from by decide, if_true]
      omega
    · unfold pyCount
      rw [List.count_append, List.count_singleton]
      simp only [show (('"' : Char) == '"') = true from by decide, if_true]
      rw [hqp] at hodd
      unfold pyCount at hodd
      omega
  · next heven =>
    rw [hqp] at heven
    omega

/-- Étape 2 only inserts quote characters. -/
theorem mem_quoteBalance {y : PyStr} {c : Char} (h : c ∈ quoteBalance y) :
    c ∈ y ∨ c = '"' := by
  simp only [quoteBalance] at h
  split at h
  · split at h
    · rcases List.mem_append.mp h with h | h
      · rcases List.mem_append.mp h with h | h
        · exact Or.inl (List.mem_of_mem_take h)
        · simp at h; exact Or.inr h
      · exact Or.inl (List.mem_of_mem_drop h)
    · rcases List.mem_append.mp h with h | h
      · exact Or.inl h
      · simp at h; exact Or.inr h
  · exact Or.inl h

/-- Characters of a returned repair come from Étape 2's output or are
inserted commas / closing braces. -/
theorem mem_balanceSteps {y s : PyStr} (h : balanceSteps y = .ok s) :
    ∀ {c : Char}, c ∈ s → c ∈ quoteBalance y ∨ c = ',' ∨ c = '\x7d' := by
  unfold balanceSteps at h
  set c1 := quoteBalance y with hc1
  set c2 := c1 ++ List.replicate (braceStack c1).length '\x7d' with hc2
  have hmem2 : ∀ {c : Char}, c ∈ c2 → c ∈ c1 ∨ c = '\x7d' := by
    intro c hc
    rw [hc2] at hc
    rcases List.mem_append.mp hc with hc | hc
    · exact Or.inl hc
    · exact Or.inr (List.eq_of_mem_replicate hc)
  have hmem3 : ∀ {c3 : PyStr}, (∀ {c : Char}, c ∈ c3 → c ∈ c1 ∨ c = ',' ∨ c = '\x7d') →
      ∀ {c : Char},
        c ∈ (if pyCount c3 '\x7b' > pyCount c3 '\x7d'
          then c3 ++ List.replicate (pyCount c3 '\x7b' - pyCount c3 '\x7d') '\x7d'
          else c3) → c ∈ c1 ∨ c = ',' ∨ c = '\x7d' := by
    intro c3 hmc c hc
    split at hc
    · rcases List.mem_append.mp hc with hc | hc
      · exact hmc hc
      · exact Or.inr (Or.inr (List.eq_of_mem_replicate hc))
    · exact hmc hc
  intro c hc
  cases hl : jsonLoads c2 with
  | ok v =>
    simp only [hl] at h
    injection h with h2
    rcases hmem2 (h2 ▸ hc) with hx | hx
    · exact Or.inl hx
    · exact Or.inr (Or.inr hx)
  | error e =>
    cases e with
    | jsonDecode je =>
      simp only [hl] at h
      by_cases hin :
          pyInStr (pys ("Expecting " ++ sq ++ "," ++ sq ++ " delimiter")) (jsonErrStr je) = true
      · rw [if_pos hin] at h
        cases hp : pyIntOfStr (pyStrip (pyLastPiece (pySplit (jsonErrStr je) (pys "char ")))) with
        | none => rw [hp] at h; cases h
        | some pos =>
          rw [hp] at h
          simp only [] at h
          injection h with h2
          refine hmem3 ?_ (h2 ▸ hc)
          intro d hd
          rcases List.mem_append.mp hd with hd | hd
          · rcases List.mem_append.mp hd with hd | hd
            · rcases hmem2 (List.mem_of_mem_take hd) with hx | hx
              · exact Or.inl hx
              · exact Or.inr (Or.inr hx)
            · simp at hd; exact Or.inr (Or.inl hd)
          · rcases hmem2 (List.mem_of_mem_drop hd) with hx | hx
            · exact Or.inl hx
            · exact Or.inr (Or.inr hx)
      · rw [if_neg hin] at h
        simp only [] at h
        injection h with h2
        refine hmem3 ?_ (h2 ▸ hc)
        intro d hd
        rcases hmem2 hd with hx | hx
        · exact Or.inl hx
        · exact Or.inr (Or.inr hx)
    | valueError lit => simp only [hl] at h; cases h
    | attributeError => simp only [hl] at h; cases h
    | typeError => simp only [hl] at h; cases h
    | transport => simp only [hl] at h; cases h
    | recursion => simp only [hl] at h; cases h

/-- Whatever Étape 4 does, a returned repair is the Étape 2+3 text,
possibly with one comma inserted, possibly with closing braces appended. -/
theorem balanceSteps_ok_shape {y s : PyStr} (h : balanceSteps y = .ok s) :
    ∃ c3 : PyStr,
      (c3 = quoteBalance y ++ List.replicate (braceStack (quoteBalance y)).length '\x7d' ∨
        ∃ n : Nat,
          c3 = (quoteBalance y ++ List.replicate (braceStack (quoteBalance y)).length '\x7d').take n
            ++ ',' :: (quoteBalance y ++ List.replicate (braceStack (quoteBalance y)).length '\x7d').drop n) ∧
      (s = c3 ∨ s = c3 ++ List.replicate (pyCount c3 '\x7b' - pyCount c3 '\x7d') '\x7d') := by
  unfold balanceSteps at h
  set c1 := quoteBalance y with hc1
  set c2 := c1 ++ List.replicate (braceStack c1).length '\x7d' with hc2
  cases hl : jsonLoads c2 with
  | ok v =>
    simp only [hl] at h
    injection h with h2
    exact ⟨c2, Or.inl rfl, Or.inl h2.symm⟩
  | error e =>
    cases e with
    | jsonDecode je =>
      simp only [hl] at h
      by_cases hin :
          pyInStr (pys ("Expecting " ++ sq ++ "," ++ sq ++ " delimiter")) (jsonErrStr je) = true
      · rw [if_pos hin] at h
        cases hp : pyIntOfStr (pyStrip (pyLastPiece (pySplit (jsonErrStr je) (pys "char ")))) with
        | none => rw [hp] at h; cases h
        | some pos =>
          rw [hp] at h
          simp only [] at h
          injection h with h2
          rw [show c2.take pos.toNat ++ [','] ++ c2.drop pos.toNat
            = c2.take pos.toNat ++ ',' :: c2.drop pos.toNat from by
              rw [List.append_assoc, List.singleton_append]] at h2
          refine ⟨c2.take pos.toNat ++ ',' :: c2.drop pos.toNat,
            Or.inr ⟨pos.toNat, rfl⟩, ?_⟩
          rw [← h2]
          split
          · exact Or.inr rfl
          · exact Or.inl rfl
      · rw [if_neg hin] at h
        simp only [] at h
        injection h with h2
        refine ⟨c2, Or.inl rfl, ?_⟩
        rw [← h2]
        split
        · exact Or.inr rfl
        · exact Or.inl rfl
    | valueError lit => simp only [hl] at h; cases h
    | attributeError => simp only [hl] at h; cases h
    | typeError => simp only [hl] at h; cases h
    | transport => simp only [hl] at h; cases h
    | recursion => simp only [hl] at h; cases h

/-- The quote count of a returned repair equals Étape 2's quote count —
the later steps insert only commas and closing braces. -/
theorem balanceSteps_quote_count {y s : PyStr} (h : balanceSteps y = .ok s) :
    pyCount s '"' = pyCount (quoteBalance y) '"' := by
  obtain ⟨c3, hc3, hs⟩ := balanceSteps_ok_shape h
  have hrep : ∀ (l : PyStr) (k : Nat),
      pyCount (l ++ List.replicate k '\x7d') '"' = pyCount l '"' := by
    intro l k
    unfold pyCount
    rw [List.count_append, List.count_replicate]
    simp [show (('\x7d' : Char) == '"') = false from by decide]
  have hc3q : pyCount c3 '"' = pyCount (quoteBalance y) '"' := by
    rcases hc3 with rfl | ⟨n, rfl⟩
    · exact hrep _ _
    · rw [pyCount_insert]
      simp only [show ((',' : Char) == '"') = false from by decide,
        Bool.false_eq_true, if_false]
      rw [hrep]
      omega
  rcases hs with rfl | rfl
  · exact hc3q
  · rw [hrep]
    exact hc3q

/-- C5 amended: the even-unescaped-quote invariant does not hold for all
inputs (see the counterexample, where the synthetic quote lands after a
backslash), but it does hold for every backslash-free input: there all
quotes are unescaped, the Étape 2 parity repair makes their number even,
and the later steps insert no further quotes. -/
theorem c5_even_quotes_no_backslash {x s : PyStr} (hx : '\\' ∉ x)
    (h : clean_json_string x = .ok s) :
    specUnescapedQuotes s false % 2 = 0 := by
  unfold clean_json_string at h
  have hy : '\\' ∉ pyScan x := by
    intro hc
    rcases pyScan_mem hc with hc | hc
    · cases hc
    · exact hx hc
  have hs_nb : '\\' ∉ s := by
    intro hc
    rcases mem_balanceSteps h hc with hc | hc | hc
    · rcases mem_quoteBalance hc with hc | hc
      · exact hy hc
      · cases hc
    · cases hc
    · cases hc
  rw [specUnescapedQuotes_no_bs hs_nb, balanceSteps_quote_count h]
  exact quoteBalance_even (pyScan x) hy

theorem c5_amended_witness :
    ('\\' ∉ pys "\x7b\"a\": \"b") ∧ clean_json_string (pys "\x7b\"a\": \"b") =
        .ok (pys "\x7b\"a\": \"b\"\x7d") ∧
      specUnescapedQuotes (pys "\x7b\"a\": \"b\"\x7d") false % 2 = 0 :=
  ⟨by decide, by decide,
    @c5_even_quotes_no_backslash (pys "\x7b\"a\": \"b") (pys "\x7b\"a\": \"b\"\x7d")
      (by decide) (by decide)⟩

theorem c10_witness :
    (∃ d n, generate_iros genBad 1 0 = .ok (d, n)) ∧
    (genBad 0 = .fail → generate_iros genBad 1 0 = .ok (.jobj [], 1)) ∧
    (∀ raw e, genBad 0 = .ok raw → jsonLoads raw = .error e →
      (∀ s, clean_json_string raw = .ok s → ∃ e2, jsonLoads s = .error e2) →
      generate_iros genBad 1 0 = .ok (.jobj [], 1)) :=
  c10_exceptions_swallowed genBad 1 0 (by omega)

/-! ## String-content preservation on newline-free inputs (C6) -/

theorem noEscCtl_tail {a : Char} {r : PyStr} (h : noEscCtl (a :: r) = true) :
    noEscCtl r = true := by
  cases r with
  | nil => rfl
  | cons b r2 =>
    simp only [noEscCtl] at h
    exact (Bool.and_eq_true _ _ ▸ h).2

theorem noEscCtl_head {a : Char} {r : PyStr} (h : noEscCtl (a :: r) = true)
    (ha : (a == '\\') = true) :
    ∀ c, r.head? = some c → (c == '\r' || c == '\t') = false := by
  intro c hc
  cases r with
  | nil => cases hc
  | cons b r2 =>
    have hb : b = c := by injection hc
    subst hb
    cases hx : (b == '\r' || b == '\t') with
    | false => rfl
    | true =>
      simp only [noEscCtl, ha, hx] at h
      simp at h

theorem splitNl_no_nl : ∀ {x : PyStr}, '\n' ∉ x → splitNl x = [x] := by
  intro x
  induction x with
  | nil => intro h; rfl
  | cons a r ih =>
    intro h
    have ha : (a == '\n') = false := by
      cases hx : (a == '\n') with
      | false => rfl
      | true => exact absurd (List.mem_cons_self a r) (eq_of_beq hx ▸ h)
    have hr : '\n' ∉ r := fun hm => h (List.mem_cons_of_mem a hm)
    simp only [splitNl, ha, Bool.false_eq_true, if_false, ih hr]

/-- On a newline-free line with no escaped carriage return or tab, the
scanner's character loop commutes with string-content extraction: the
kept characters have the same string content (and leave the
`(in_string, escape_next)` discipline in the same state) as the
original line. -/
theorem stringContent_scanLine : ∀ (l : PyStr) (ins esc : Bool),
    '\n' ∉ l → noEscCtl l = true →
    (esc = true → ∀ c, l.head? = some c → (c == '\r' || c == '\t') = false) →
    stringContent (scanLine l ins esc).1 ins esc = stringContent l ins esc := by
  intro l
  induction l with
  | nil => intro ins esc _ _ _; rfl
  | cons a r ih =>
    intro ins esc hnl hctl hesc
    have hnl2 : '\n' ∉ r := fun hm => hnl (List.mem_cons_of_mem a hm)
    have hanl : a ≠ '\n' := fun he => hnl (he ▸ List.mem_cons_self a r)
    have hctl2 := noEscCtl_tail hctl
    by_cases h1 : (a == '\\' && !esc) = true
    · simp only [scanLine, h1, if_true]
      simp only [stringContent, h1, if_true]
      rw [ih ins true hnl2 hctl2
        (fun _ => noEscCtl_head hctl (Bool.and_eq_true _ _ ▸ h1).1)]
    · by_cases h2 : (a == '"' && !esc) = true
      · have ha : a = '"' := eq_of_beq (Bool.and_eq_true _ _ ▸ h2).1
        subst ha
        simp only [scanLine, h1, Bool.false_eq_true, if_false, h2, if_true]
        rw [if_pos (by simp)]
        simp only [stringContent, h1, Bool.false_eq_true, if_false, h2, if_true]
        exact ih (!ins) false hnl2 hctl2 (fun hf => nomatch hf)
      · by_cases hkeep : (ins || !(a == '\n' || a == '\r' || a == '\t')) = true
        · simp only [scanLine, h1, Bool.false_eq_true, if_false, h2]
          rw [if_pos hkeep]
          simp only [stringContent, h1, h2, Bool.false_eq_true, if_false]
          rw [ih ins false hnl2 hctl2 (fun hf => nomatch hf)]
        · have hk2 : (ins || !(a == '\n' || a == '\r' || a == '\t')) = false := by
            cases hb : (ins || !(a == '\n' || a == '\r' || a == '\t')) with
            | false => rfl
            | true => exact absurd hb hkeep
          obtain ⟨hins, hnot⟩ := Bool.or_eq_false_iff.mp hk2
          have hctlchar : (a == '\n' || a == '\r' || a == '\t') = true := by
            cases hb : (a == '\n' || a == '\r' || a == '\t') with
            | true => rfl
            | false => rw [hb] at hnot; cases hnot
          have hanlb : (a == '\n') = false := by
            cases hb : (a == '\n') with
            | false => rfl
            | true => exact absurd (eq_of_beq hb) hanl
          have hrt : (a == '\r' || a == '\t') = true := by
            rw [hanlb] at hctlchar
            simpa using hctlchar
          have hesc0 : esc = false := by
            cases hE : esc with
            | false => rfl
            | true => rw [hesc hE a rfl] at hrt; cases hrt
          subst hesc0
          subst hins
          simp only [scanLine, h1, Bool.false_eq_true, if_false, h2]
          rw [if_neg hkeep]
          simp only [stringContent, h1, h2, Bool.false_eq_true, if_false]
          rw [ih false false hnl2 hctl2 (fun hf => nomatch hf)]

/-- C6 amended: the verbatim-copy property fails for line breaks (the
counterexample above), but holds on newline-free text with no escaped
carriage return or tab: then the whitespace-cleaning pass preserves the
in-string content exactly — carriage returns and tabs inside strings are
copied verbatim, and the content of every string is unaltered. -/
theorem c6_string_content_preserved {x : PyStr} (hnl : '\n' ∉ x)
    (hctl : noEscCtl x = true) :
    (stringContent (pyScan x) false false).1 = (stringContent x false false).1 := by
  have hsplit : splitNl x = [x] := splitNl_no_nl hnl
  rw [pyScan, hsplit]
  show (stringContent (joinSpace [(scanLine x false false).1]) false false).1 = _
  rw [show joinSpace [(scanLine x false false).1] = (scanLine x false false).1 from rfl]
  rw [stringContent_scanLine x false false hnl hctl (fun hf => nomatch hf)]

theorem c6_amended_witness :
    ('\n' ∉ pys "\"a\rb\tc\"") ∧ noEscCtl (pys "\"a\rb\tc\"") = true ∧
      (stringContent (pyScan (pys "\"a\rb\tc\"")) false false).1 =
        (stringContent (pys "\"a\rb\tc\"") false false).1 :=
  ⟨by decide, by decide, c6_string_content_preserved (by decide) (by decide)⟩

/-! ## The validation loop on well-shaped documents (C7) -/

theorem catCheck_spec {details : JValue} {k1 k2 : String}
    (hmem : (k1, k2) ∈ categoryKeys) (h : wellShapedDetails details = true) :
    catCheck details k1 k2 = .ok (decide (specCatCount details k1 k2 < 5)) := by
  cases details
  case jobj kvs =>
    simp only [wellShapedDetails] at h
    have hk : (match (kvs.lookup k1).getD (.jobj []) with
        | .jobj kvs2 =>
          (match (kvs2.lookup k2).getD (.jarr []) with
           | .jarr _ => true
           | _ => false)
        | _ => false) = true := List.all_eq_true.mp h (k1, k2) hmem
    cases hx1 : (kvs.lookup k1).getD (.jobj [])
    case jobj kvs2 =>
      simp only [hx1] at hk
      cases hx2 : (kvs2.lookup k2).getD (.jarr [])
      case jarr l =>
        simp only [catCheck, pyGet, hx1, hx2, pyLen, specCatCount, bind, Except.bind,
          pure, Except.pure]
      all_goals simp only [hx2] at hk; cases hk
    all_goals simp only [hx1] at hk; cases hk
  all_goals cases h

theorem checkDetails_of_oks {details : JValue} {b1 b2 b3 b4 b5 b6 : Bool}
    (h1 : catCheck details "impacts" "positifs" = .ok b1)
    (h2 : catCheck details "impacts" "negatifs" = .ok b2)
    (h3 : catCheck details "risques" "liste" = .ok b3)
    (h4 : catCheck details "risques" "mesures_attenuation" = .ok b4)
    (h5 : catCheck details "opportunites" "liste" = .ok b5)
    (h6 : catCheck details "opportunites" "actions_saisie" = .ok b6) :
    checkDetails details = .ok (b1 || (b2 || (b3 || (b4 || (b5 || b6))))) := by
  simp only [checkDetails, h1, h2, h3, h4, h5, h6, bind, Except.bind]
  cases b1 <;> cases b2 <;> cases b3 <;> cases b4 <;> cases b5 <;> cases b6 <;> rfl

theorem checkDetails_spec {details : JValue} (h : wellShapedDetails details = true) :
    checkDetails details =
      .ok (categoryKeys.any fun kk => decide (specCatCount details kk.1 kk.2 < 5)) := by
  rw [checkDetails_of_oks (catCheck_spec (by decide) h) (catCheck_spec (by decide) h)
    (catCheck_spec (by decide) h) (catCheck_spec (by decide) h)
    (catCheck_spec (by decide) h) (catCheck_spec (by decide) h)]
  simp only [categoryKeys, List.any_cons, List.any_nil, Bool.or_false]

theorem checkIssues_spec : ∀ {issues : List (String × JValue)},
    issues.all (fun q => wellShapedDetails q.2) = true →
    checkIssues issues =
      .ok (issues.any fun q =>
        categoryKeys.any fun kk => decide (specCatCount q.2 kk.1 kk.2 < 5)) := by
  intro issues
  induction issues with
  | nil => intro hw; rfl
  | cons q rest ih =>
    obtain ⟨nm, details⟩ := q
    intro hw
    rw [List.all_cons] at hw
    obtain ⟨hq, hrest⟩ := Bool.and_eq_true _ _ ▸ hw
    have hq2 : wellShapedDetails details = true := hq
    simp only [checkIssues, bind, Except.bind, checkDetails_spec hq2]
    cases hc : (categoryKeys.any fun kk => decide (specCatCount details kk.1 kk.2 < 5)) with
    | true =>
      simp only [eq_self_iff_true, if_true, List.any_cons, hc, Bool.true_or, pure,
        Except.pure]
    | false =>
      simp only [hc, Bool.false_eq_true, if_false, ih hrest, List.any_cons, Bool.false_or]

theorem checkPillars_spec : ∀ {pillars : List (String × JValue)},
    wellShapedDoc (.jobj pillars) = true →
    checkPillars pillars = .ok (specAnyShortfall (.jobj pillars)) := by
  intro pillars
  induction pillars with
  | nil => intro hw; rfl
  | cons p rest ih =>
    obtain ⟨nm, pv⟩ := p
    intro hw
    simp only [wellShapedDoc, List.all_cons] at hw
    obtain ⟨hp, hrest⟩ := Bool.and_eq_true _ _ ▸ hw
    cases pv
    case jobj issues =>
      have hp2 : issues.all (fun q => wellShapedDetails q.2) = true := hp
      have hrest2 : wellShapedDoc (.jobj rest) = true := hrest
      simp only [checkPillars, itemsOf, bind, Except.bind, checkIssues_spec hp2]
      cases hc : (issues.any fun q =>
          categoryKeys.any fun kk => decide (specCatCount q.2 kk.1 kk.2 < 5)) with
      | true =>
        simp only [eq_self_iff_true, if_true, specAnyShortfall, List.any_cons, hc,
          Bool.true_or, pure, Except.pure]
      | false =>
        simp only [hc, Bool.false_eq_true, if_false, specAnyShortfall, List.any_cons,
          Bool.false_or]
        rw [ih hrest2]
        rfl
    all_goals cases hp

/-- C7, counterexample: the claim quantifies over every parsed document,
but a document whose issue-details value is a string — which decodes from
perfectly valid JSON — makes the validation loop raise `AttributeError`
at `details.get(...)` instead of reading any nested list: the validator
can end in an error, and then records no count at all for the entry. -/
theorem c7_counterexample :
    jsonLoads (pys "\x7b\"p\": \x7b\"e\": \"x\"\x7d\x7d") = .ok doc7bad ∧
      validateResult doc7bad = .error .attributeError :=
  ⟨by decide, by decide⟩

/-- C7 amended: on well-shaped documents (both mapping levels are dicts
and every present category container/leaf is a dict/list) the validation
loop raises nothing and returns exactly the spec-side verdict: whether
some configured category of some issue, read with absent keys defaulting
to empty containers, falls below the required count of 5. -/
theorem c7_validator_counts_with_defaults {doc : JValue}
    (h : wellShapedDoc doc = true) :
    validateResult doc = .ok (specAnyShortfall doc) := by
  cases doc
  case jobj pillars =>
    simp only [validateResult, itemsOf, bind, Except.bind]
    exact checkPillars_spec h
  all_goals cases h

theorem c7_amended_witness :
    wellShapedDoc doc4val = true ∧
      validateResult doc4val = .ok (specAnyShortfall doc4val) :=
  ⟨by decide, c7_validator_counts_with_defaults (by decide)⟩

end CSRD
